import Mathlib

/-!
Verification of the radio-headless validated-configuration and
command-authorization subsystem.

The development shallowly embeds the relevant Python code of
`src/bin/radio_lib.py` and `src/web/pi_backend.py`:

* Python values (the decoded configuration tree) become the inductive `Val`;
  `isinstance` tests, `dict.get`, `dict.__getitem__`, the `in` operator and
  numeric comparisons are embedded with their real Python semantics, including
  the fact that `bool` is a subclass of `int` and that `__getitem__` and
  `in` on non-containers raise.  Fallible operations return
  `Except PyExc`.
* The whitespace classes are modelled at the character level: `isPySpace` is
  the set matched both by `str.strip` and by the regex class `\s`
  (the ASCII part plus NEL, NBSP and the Unicode line/paragraph separators;
  rarer Unicode space characters are omitted), `isLineBreak` is the set on
  which `str.splitlines` breaks, and `isShlexSpace` is `shlex.whitespace`.
* Floating-point numbers are embedded as rationals; the configuration files
  only ever compare them with integer bounds, where rational and IEEE
  semantics agree.
-/

set_option autoImplicit false

namespace Radio

/-- A decoded Python value: the generic configuration tree. -/
inductive Val where
  | none  : Val
  | bool  : Bool → Val
  | int   : Int → Val
  | float : ℚ → Val
  | str   : String → Val
  | list  : List Val → Val
  | dict  : List (Val × Val) → Val

/-- A raised Python exception, by kind. -/
inductive PyExc where
  | typeError  (msg : String) : PyExc
  | valueError (msg : String) : PyExc
  | keyError   (msg : String) : PyExc
deriving DecidableEq

/-- The text of `str(exc)`. -/
def PyExc.msg : PyExc → String
  | .typeError m => m
  | .valueError m => m
  | .keyError m => m

/-- The short type name, as in `type(v).__name__`. -/
def pyTypeShort : Val → String
  | .none => "NoneType"
  | .bool _ => "bool"
  | .int _ => "int"
  | .float _ => "float"
  | .str _ => "str"
  | .list _ => "list"
  | .dict _ => "dict"

/-- The text of `str(type(v))`, e.g. `<class \x27int\x27>`. -/
def pyTypeFull (v : Val) : String := "<class \x27" ++ pyTypeShort v ++ "\x27>"

/-- The text of `str(v)` for the scalar values that appear in configuration
keys.  Containers are unhashable in Python and can never occur as dictionary
keys, which is the only place this function is applied; float formatting is
approximated by rational formatting. -/
def pyStr : Val → String
  | .none => "None"
  | .bool true => "True"
  | .bool false => "False"
  | .int n => toString n
  | .float q => toString q
  | .str s => s
  | .list _ => "<list>"
  | .dict _ => "<dict>"

/-- The text of `repr(v)` for scalar values (same caveats as `pyStr`). -/
def pyRepr : Val → String
  | .str s => "\x27" ++ s ++ "\x27"
  | v => pyStr v

/-- `isinstance(v, int)`: in Python `bool` is a subclass of `int`, and the
numeric value of `True` is 1.  Returns the integer value when the test
succeeds. -/
def asInt : Val → Option Int
  | .int n => some n
  | .bool b => some (if b then 1 else 0)
  | _ => Option.none

/-- `isinstance(v, (int, float))`, with the numeric value. -/
def toNum : Val → Option ℚ
  | .int n => some (n : ℚ)
  | .bool b => some (if b then 1 else 0)
  | .float q => some q
  | _ => Option.none

/-- `isinstance(v, dict)`. -/
def isDictB : Val → Bool
  | .dict _ => true
  | _ => false

/-- Python `==` restricted to hashable scalars, as used for dictionary key
lookup.  Numeric types compare by value across `int`/`bool`/`float`;
containers are unhashable in Python and can never be dictionary keys, so they
are never equal to a looked-up key here. -/
def pyKeyEq : Val → Val → Bool
  | .str a, .str b => a == b
  | .none, .none => true
  | a, b =>
    match toNum a, toNum b with
    | some x, some y => x == y
    | _, _ => false

/-- `d.get(k)` on a Python dictionary, for a string key `k`: `none` when the
key is absent. -/
def dictGetS (d : List (Val × Val)) (k : String) : Option Val :=
  (d.find? (fun kv => pyKeyEq kv.1 (Val.str k))).map (fun kv => kv.2)

/-- `k in d` on a Python dictionary, for a string key. -/
def dictContainsS (d : List (Val × Val)) (k : String) : Bool :=
  (dictGetS d k).isSome

/-- `d[k]` on a Python dictionary, for a string key: raises `KeyError` when
the key is absent. -/
def pyGetItemS (d : List (Val × Val)) (k : String) : Except PyExc Val :=
  match dictGetS d k with
  | some v => Except.ok v
  | Option.none => Except.error (PyExc.keyError ("\x27" ++ k ++ "\x27"))

/-- Whitespace for `str.strip` and for the regex class `\s` (they coincide in
Python).  ASCII whitespace, the C1 controls FS/GS/RS/US and NEL, NBSP, and
the Unicode line/paragraph separators; rarer Unicode space characters are
omitted from the model. -/
def isPySpace (c : Char) : Bool :=
  c == ' ' || c == '\t' || c == '\n' || c == '\r' || c == '\x0b' || c == '\x0c' ||
  c == '\x1c' || c == '\x1d' || c == '\x1e' || c == '\x1f' || c == '\x85' ||
  c == '\xa0' || c == ' ' || c == ' '

/-- The characters on which `str.splitlines` breaks. -/
def isLineBreak (c : Char) : Bool :=
  c == '\n' || c == '\r' || c == '\x0b' || c == '\x0c' ||
  c == '\x1c' || c == '\x1d' || c == '\x1e' || c == '\x85' ||
  c == ' ' || c == ' '

/-- `shlex.whitespace`: the token separators of the POSIX lexer. -/
def isShlexSpace (c : Char) : Bool :=
  c == ' ' || c == '\t' || c == '\r' || c == '\n'

/-- The character list of `s.strip()`. -/
def stripChars (cs : List Char) : List Char :=
  ((cs.dropWhile isPySpace).reverse.dropWhile isPySpace).reverse

/-- `s.strip()`. -/
def pyStrip (s : String) : String := ⟨stripChars s.data⟩

/-- `s.lower()` (the configuration strings are ASCII). -/
def pyLower (s : String) : String := ⟨s.data.map Char.toLower⟩

/-- Whether `cs` begins with the literal `lit` (`str.startswith`). -/
def chsBegins : List Char → List Char → Bool
  | _, [] => true
  | [], _ :: _ => false
  | c :: cs, l :: ls => c == l && chsBegins cs ls

/-- The digit value of `c` in the given base (10 or 16), as accepted by the
Python builtin `int`. -/
def digitVal (base : Nat) (c : Char) : Option Nat :=
  if '0' ≤ c ∧ c ≤ '9' then
    let d := c.toNat - '0'.toNat
    if d < base then some d else Option.none
  else if 'a' ≤ c ∧ c ≤ 'f' ∧ base = 16 then some (c.toNat - 'a'.toNat + 10)
  else if 'A' ≤ c ∧ c ≤ 'F' ∧ base = 16 then some (c.toNat - 'A'.toNat + 10)
  else Option.none

/-- Reads a non-empty digit run, most significant first. -/
def readDigits (base : Nat) : List Char → Nat → Option Nat
  | [], acc => some acc
  | c :: rest, acc =>
    match digitVal base c with
    | some d => readDigits base rest (acc * base + d)
    | Option.none => Option.none

/-- The message of the `ValueError` raised by `int(s, base)`. -/
def intErrMsg (base : Nat) (s : String) : String :=
  "invalid literal for int() with base " ++ toString base ++ ": \x27" ++ s ++ "\x27"

/-- The Python builtin `int(s, base)` for base 10 or 16 on an already
stripped string: an optional sign, for base 16 an optional `0x`/`0X` prefix,
then a non-empty digit run.  Digit-separator underscores are not modelled. -/
def pyInt (base : Nat) (s : String) : Except PyExc Int :=
  let afterSign : Int × List Char :=
    match s.data with
    | '+' :: r => (1, r)
    | '-' :: r => (-1, r)
    | r => (1, r)
  let body : List Char :=
    if base = 16 then
      match afterSign.2 with
      | '0' :: x :: r => if x = 'x' ∨ x = 'X' then r else afterSign.2
      | _ => afterSign.2
    else afterSign.2
  match body with
  | [] => Except.error (PyExc.valueError (intErrMsg base s))
  | _ =>
    match readDigits base body 0 with
    | some n => Except.ok (afterSign.1 * (n : Int))
    | Option.none => Except.error (PyExc.valueError (intErrMsg base s))

/-- Embedding of `radio_lib.parse_i2c_addr`: an `int` (which includes `bool`)
is returned unchanged; a string is stripped, lowercased and parsed in base 16
when it starts with `0x`, in base 10 otherwise; any other type raises
`TypeError`. -/
def parse_i2c_addr (v : Val) : Except PyExc Int :=
  match v with
  | .int n => Except.ok n
  | .bool b => Except.ok (if b then 1 else 0)
  | .str s =>
    let t := pyLower (pyStrip s)
    if chsBegins t.data "0x".data then pyInt 16 t else pyInt 10 t
  | x => Except.error (PyExc.typeError ("Unsupported I2C address type: " ++ pyTypeFull x))

def exceptDecEq {ε α : Type} [DecidableEq ε] [DecidableEq α] :
    (a b : Except ε α) → Decidable (a = b)
  | .ok x, .ok y =>
    if h : x = y then isTrue (by rw [h]) else isFalse (fun hh => h (Except.ok.inj hh))
  | .error x, .error y =>
    if h : x = y then isTrue (by rw [h]) else isFalse (fun hh => h (Except.error.inj hh))
  | .ok _, .error _ => isFalse (fun h => Except.noConfusion h)
  | .error _, .ok _ => isFalse (fun h => Except.noConfusion h)

instance {ε α : Type} [DecidableEq ε] [DecidableEq α] : DecidableEq (Except ε α) :=
  exceptDecEq

/-!
Command authorizer (`pi_backend.is_command_allowed`, `command_to_argv`).

The three whitelist regexes of `ALLOWED_COMMANDS` are embedded as functions
on character lists.  Each regex is fully anchored (`re.match` plus a final
`$`, applied to a stripped string, so `$` is end of input), and at every
point of each pattern the construct that follows a `\s+` or `\d+` run cannot
match a character of the run, so the greedy, non-backtracking readers below
recognise exactly the regex languages.  The regex class `\d` is modelled as
the ASCII digits. -/

/-- The regex class `\d`, modelled as ASCII `0-9`. -/
def isPyDigit (c : Char) : Bool := '0' ≤ c && c ≤ '9'

/-- Consumes the literal `lit`; the remainder on success. -/
def chompLit : List Char → List Char → Option (List Char)
  | [], cs => some cs
  | _ :: _, [] => Option.none
  | l :: ls, c :: cs => if c = l then chompLit ls cs else Option.none

/-- Consumes `\s+` (one or more `isPySpace` characters), greedily. -/
def wsPlus : List Char → Option (List Char)
  | [] => Option.none
  | c :: cs => if isPySpace c then some (cs.dropWhile isPySpace) else Option.none

/-- Consumes `\d+` (one or more ASCII digits), greedily. -/
def digitsPlus : List Char → Option (List Char)
  | [] => Option.none
  | c :: cs => if isPyDigit c then some (cs.dropWhile isPyDigit) else Option.none

/-- The regex `^mpc\s+(play|pause|stop|next|prev|volume\s+\d{1,3})$`. -/
def pat_mpc (cs : List Char) : Bool :=
  match chompLit "mpc".data cs with
  | Option.none => false
  | some r1 =>
    match wsPlus r1 with
    | Option.none => false
    | some r2 =>
      r2 == "play".data || r2 == "pause".data || r2 == "stop".data ||
      r2 == "next".data || r2 == "prev".data ||
      (match chompLit "volume".data r2 with
       | Option.none => false
       | some r3 =>
         match wsPlus r3 with
         | Option.none => false
         | some r4 => r4.all isPyDigit && decide (1 ≤ r4.length) && decide (r4.length ≤ 3))

/-- The regex `^radio-play\s+\d+\s+\d+$`. -/
def pat_radio_play (cs : List Char) : Bool :=
  match chompLit "radio-play".data cs with
  | Option.none => false
  | some r1 =>
    match wsPlus r1 with
    | Option.none => false
    | some r2 =>
      match digitsPlus r2 with
      | Option.none => false
      | some r3 =>
        match wsPlus r3 with
        | Option.none => false
        | some r4 => !r4.isEmpty && r4.all isPyDigit

/-- The regex `^sudo\s+shutdown\s+-h\s+now$`. -/
def pat_shutdown (cs : List Char) : Bool :=
  match chompLit "sudo".data cs with
  | Option.none => false
  | some r1 =>
    match wsPlus r1 with
    | Option.none => false
    | some r2 =>
      match chompLit "shutdown".data r2 with
      | Option.none => false
      | some r3 =>
        match wsPlus r3 with
        | Option.none => false
        | some r4 =>
          match chompLit "-h".data r4 with
          | Option.none => false
          | some r5 =>
            match wsPlus r5 with
            | Option.none => false
            | some r6 => r6 == "now".data

/-- The ordered whitelist `ALLOWED_COMMANDS` of `pi_backend.py`, as full-match
recognisers. -/
def ALLOWED_COMMANDS : List (List Char → Bool) :=
  [pat_mpc, pat_radio_play, pat_shutdown]

/-- Embedding of `pi_backend.is_command_allowed`: strip the command, then test
it against each whitelist pattern. -/
def is_command_allowed (command : String) : Bool :=
  ALLOWED_COMMANDS.any (fun p => p (stripChars command.data))

/-- Groups a character list into maximal runs separated by shlex whitespace
(with empty groups at separators, filtered away by `shlexSplit`). -/
def splitTokens : List Char → List (List Char) :=
  List.foldr
    (fun c acc =>
      if isShlexSpace c then [] :: acc
      else
        match acc with
        | [] => [[c]]
        | g :: gs => (c :: g) :: gs)
    []

/-- The non-empty groups: the tokens of the shlex lexer. -/
def shlexTokens (cs : List Char) : List (List Char) :=
  (splitTokens cs).filter (fun g => !g.isEmpty)

/-- Embedding of `shlex.split` in POSIX mode for inputs that contain no
quote, escape or comment characters — which is the case for every whitelisted
command, the only strings the backend ever lexes: the input splits into
maximal runs of non-whitespace characters, where the token separators are
`shlex.whitespace` (space, tab, CR, LF — a strict subset of the regex class
`\s`). -/
def shlexSplit (s : String) : List String :=
  (shlexTokens s.data).map (fun g => ⟨g⟩)

/-- Embedding of `pi_backend.command_to_argv`.  `radioPlayCmd` is the
configured `RADIO_PLAY_CMD` executable alias (default `"radio-play"`): the
first argument is replaced by it when it equals the logical name
`"radio-play"`. -/
def command_to_argv (radioPlayCmd : String) (command : String) : List String :=
  match shlexSplit command with
  | [] => []
  | a :: rest => (if a == "radio-play" then radioPlayCmd else a) :: rest

/-!
State store (`radio_lib.read_state`, `radio_lib.write_state`).

A state file is modelled as `Option String` (`Option.none` = the file does
not exist).  The parsed record is an association list in Python dictionary
order: a newly inserted key is appended, an update of an existing key keeps
its position. -/

/-- Worker for `str.splitlines`: `acc` holds the current line, reversed, and
`afterCr` records whether the previous character was a `\r` whose break has
already been emitted — a `\n` directly after it belongs to the same `\r\n`
break and is skipped. -/
def splitLinesCore (acc : List Char) (afterCr : Bool) : List Char → List (List Char)
  | [] => if acc.isEmpty then [] else [acc.reverse]
  | c :: rest =>
    if afterCr && c = '\n' then splitLinesCore acc false rest
    else if c = '\r' then acc.reverse :: splitLinesCore [] true rest
    else if isLineBreak c then acc.reverse :: splitLinesCore [] false rest
    else splitLinesCore (c :: acc) false rest

/-- `str.splitlines`: breaks at every `isLineBreak` character, treating
`\r\n` as a single break, with no trailing empty line. -/
def splitLines (cs : List Char) : List (List Char) := splitLinesCore [] false cs

/-- Python `dict` assignment `d[k] = v`: replaces the value in place when the
key exists, appends otherwise. -/
def dictSetS : List (String × String) → String → String → List (String × String)
  | [], k, v => [(k, v)]
  | kv :: rest, k, v =>
    if kv.1 == k then (k, v) :: rest else kv :: dictSetS rest k v

/-- Python `dict.update`: left-to-right assignment of every pair. -/
def dictUpdateS (d : List (String × String)) (u : List (String × String)) :
    List (String × String) :=
  u.foldl (fun d kv => dictSetS d kv.1 kv.2) d

/-- Python `dict` lookup `d.get(k)`. -/
def lookupS : List (String × String) → String → Option String
  | [], _ => Option.none
  | kv :: rest, k => if kv.1 == k then some kv.2 else lookupS rest k

/-- Python `k in d`. -/
def containsS (d : List (String × String)) (k : String) : Bool :=
  (lookupS d k).isSome

/-- One line of the state file: after stripping, a line is kept when it is
non-empty, contains `=` and does not start with `#`; it is then split at the
first `=` and key and value are stripped. -/
def stateLineEntry (rawLine : List Char) : Option (String × String) :=
  let line := stripChars rawLine
  if !line.isEmpty && line.contains '=' && !(line.head? == some '#') then
    some (⟨stripChars (line.takeWhile (fun c => c != '='))⟩,
          ⟨stripChars ((line.dropWhile (fun c => c != '=')).drop 1)⟩)
  else Option.none

/-- Embedding of `radio_lib.read_state`: a missing file yields the empty
record; otherwise every kept `key=value` line is assigned in order, so the
last occurrence of a duplicate key wins. -/
def read_state (file : Option String) : List (String × String) :=
  match file with
  | Option.none => []
  | some text =>
    (splitLines text.data).foldl
      (fun st l =>
        match stateLineEntry l with
        | some kv => dictSetS st kv.1 kv.2
        | Option.none => st)
      []

/-- Serializes a record as `key=value` lines (`"".flatten(f"{k}={v}\n" ...)`). -/
def serializeCh (st : List (String × String)) : List Char :=
  st.foldr (fun kv acc => kv.1.data ++ '=' :: (kv.2.data ++ '\n' :: acc)) []

/-- Embedding of `radio_lib.write_state`: read the current record, overlay
the updates (whose values the Python code has already coerced with `str`),
and rewrite the whole file.  Returns the new file contents. -/
def write_state (file : Option String) (updates : List (String × String)) : String :=
  ⟨serializeCh (dictUpdateS (read_state file) updates)⟩

/-!
Hardware-configuration validators
(`radio_lib._validate_rotary_config`, `_validate_encoder_oled_config`,
`validate_hardware_config`) and the stations validator
(`validate_stations_config`).

Each sequential block of the Python functions appending to `errors` becomes
one helper returning its block's errors, and the full validator concatenates
them in source order.  Operations that can raise in Python (`d[k]` on an
absent key, `in` on a non-container, ordering comparisons) run in
`Except PyExc`; the rotary validator's only raising operations are the
guarded `controls[...]` subscripts and comparisons, so only its controls
block is monadic. -/

/-- `x < y` on rationals, by cross-multiplication (denominators are
positive). -/
def ratLtB (x y : ℚ) : Bool := x.num * (y.den : Int) < y.num * (x.den : Int)

/-- `x ≤ y` on rationals, by cross-multiplication. -/
def ratLeB (x y : ℚ) : Bool := x.num * (y.den : Int) ≤ y.num * (x.den : Int)

/-- `a > b` in Python for the values compared by the validator: both operands
are numbers there (they passed `isinstance(..., int)` guards).  Comparisons
of other types are modelled as `TypeError` (Python also orders two strings or
two lists, which never reaches this embedding). -/
def pyGtNum (a b : Val) : Except PyExc Bool :=
  match toNum a, toNum b with
  | some x, some y => Except.ok (ratLtB y x)
  | _, _ =>
    Except.error (PyExc.typeError
      ("\x27>\x27 not supported between instances of \x27" ++ pyTypeShort a ++
       "\x27 and \x27" ++ pyTypeShort b ++ "\x27"))

/-- `a <= b` in Python, same modelling as `pyGtNum`. -/
def pyLeNum (a b : Val) : Except PyExc Bool :=
  match toNum a, toNum b with
  | some x, some y => Except.ok (ratLeB x y)
  | _, _ =>
    Except.error (PyExc.typeError
      ("\x27<=\x27 not supported between instances of \x27" ++ pyTypeShort a ++
       "\x27 and \x27" ++ pyTypeShort b ++ "\x27"))

/-- The `i2c` block of `_validate_rotary_config`. -/
def rotaryI2cErrs (d : List (Val × Val)) : List String :=
  match dictGetS d "i2c" with
  | some (Val.dict i2c) =>
    (match dictGetS i2c "volume_i2c_address" with
     | Option.none => ["Missing i2c.volume_i2c_address"]
     | some Val.none => ["Missing i2c.volume_i2c_address"]
     | some addr =>
       match parse_i2c_addr addr with
       | Except.ok _ => []
       | Except.error e =>
         ["Invalid i2c.volume_i2c_address (" ++ pyRepr addr ++ "): " ++ e.msg])
  | _ => ["Missing or invalid \x27i2c\x27 section (must be a mapping)"]

/-- The per-switch `bit0..bit3` pin checks. -/
def switchBitErrs (swName : String) (sw : List (Val × Val)) : List String :=
  ["bit0", "bit1", "bit2", "bit3"].foldl
    (fun errs bit =>
      errs ++
        (match (dictGetS sw bit).bind asInt with
         | some _ => []
         | Option.none => ["switches." ++ swName ++ "." ++ bit ++ " must be an integer GPIO pin"]))
    []

/-- The checks of one decode-map entry: the raw key first (integer, then
range 0-15), then independently the decoded value (integer, then range
0-9). -/
def decodeEntryErrs (mapName : String) (raw decoded : Val) : List String :=
  (match asInt raw with
   | Option.none => ["switches." ++ mapName ++ " key " ++ pyRepr raw ++ " must be an integer"]
   | some n =>
     if n < 0 ∨ 15 < n then
       ["switches." ++ mapName ++ " key " ++ pyRepr raw ++ " must be in range 0-15"]
     else []) ++
  (match asInt decoded with
   | Option.none => ["switches." ++ mapName ++ "[" ++ pyRepr raw ++ "] must be an integer"]
   | some m =>
     if m < 0 ∨ 9 < m then
       ["switches." ++ mapName ++ "[" ++ pyRepr raw ++ "] must be in range 0-9"]
     else [])

/-- The loop over the entries of a present decode map. -/
def decodeLoopErrs (mapName : String) (entries : List (Val × Val)) : List String :=
  entries.foldl (fun errs kv => errs ++ decodeEntryErrs mapName kv.1 kv.2) []

/-- The handling of one optional decode map: absent (or explicit `None`)
is skipped, a non-mapping is one error, a mapping is checked entrywise. -/
def decodeMapErrs (mapName : String) (sw : List (Val × Val)) : List String :=
  match dictGetS sw mapName with
  | Option.none => []
  | some Val.none => []
  | some (Val.dict entries) => decodeLoopErrs mapName entries
  | some _ => ["switches." ++ mapName ++ " must be a mapping of raw_code->decoded_digit"]

/-- The `switches` block of `_validate_rotary_config`. -/
def rotarySwitchesErrs (d : List (Val × Val)) : List String :=
  match dictGetS d "switches" with
  | some (Val.dict sw) =>
    (["station_switch", "bank_switch"].foldl
      (fun errs swName =>
        errs ++
          (match dictGetS sw swName with
           | some (Val.dict swd) => switchBitErrs swName swd
           | _ => ["Missing or invalid switches." ++ swName ++ " (must be a mapping)"]))
      []) ++
    (["bank_decode_map", "station_decode_map"].foldl
      (fun errs m => errs ++ decodeMapErrs m sw) [])
  | _ => ["Missing or invalid \x27switches\x27 section (must be a mapping)"]

/-- The `encoders` block of `_validate_rotary_config`. -/
def rotaryEncodersErrs (d : List (Val × Val)) : List String :=
  match dictGetS d "encoders" with
  | some (Val.dict enc) =>
    (match (dictGetS enc "volume_encoder").bind asInt with
     | some _ => []
     | Option.none => ["encoders.volume_encoder must be an integer"])
  | _ => ["Missing or invalid \x27encoders\x27 section (must be a mapping)"]

/-- One cross-field check: only when both operands individually pass
`isinstance(..., int)` are the two subscripts and the comparison executed. -/
def crossErr (ctl : List (Val × Val)) (kmin kmax : String) (msg : String) :
    Except PyExc (List String) :=
  if ((dictGetS ctl kmin).bind asInt).isSome && ((dictGetS ctl kmax).bind asInt).isSome then do
    let a ← pyGetItemS ctl kmin
    let b ← pyGetItemS ctl kmax
    let gt ← pyGtNum a b
    pure (if gt then [msg] else [])
  else pure []

/-- The required integer fields of the rotary `controls` section. -/
def rotaryRequiredInts : List String :=
  ["bank_min", "bank_max", "station_min", "station_max", "volume_min", "volume_max",
   "volume_step"]

/-- The guarded `volume_step > 0` check: executed only when `volume_step`
passes `isinstance(..., int)`. -/
def volumeStepErr (ctl : List (Val × Val)) : Except PyExc (List String) :=
  if ((dictGetS ctl "volume_step").bind asInt).isSome then do
    let v ← pyGetItemS ctl "volume_step"
    let le ← pyLeNum v (Val.int 0)
    pure (if le then ["controls.volume_step must be > 0"] else [])
  else pure []

/-- The `controls` block of `_validate_rotary_config`: per-field integer
checks, then the three guarded cross-field range checks, then the guarded
`volume_step > 0` check. -/
def rotaryControlsErrs (d : List (Val × Val)) : Except PyExc (List String) :=
  match dictGetS d "controls" with
  | some (Val.dict ctl) => do
    let reqErrs :=
      rotaryRequiredInts.foldl
        (fun errs key =>
          errs ++
            (match (dictGetS ctl key).bind asInt with
             | some _ => []
             | Option.none => ["controls." ++ key ++ " must be an integer"]))
        []
    let e1 ← crossErr ctl "bank_min" "bank_max" "controls.bank_min must be <= controls.bank_max"
    let e2 ← crossErr ctl "station_min" "station_max"
      "controls.station_min must be <= controls.station_max"
    let e3 ← crossErr ctl "volume_min" "volume_max"
      "controls.volume_min must be <= controls.volume_max"
    let e4 ← volumeStepErr ctl
    pure (reqErrs ++ e1 ++ e2 ++ e3 ++ e4)
  | _ => Except.ok ["Missing or invalid \x27controls\x27 section (must be a mapping)"]

/-- The `buttons` block of `_validate_rotary_config`. -/
def rotaryButtonsErrs (d : List (Val × Val)) : List String :=
  match dictGetS d "buttons" with
  | some (Val.dict btns) =>
    (match dictGetS btns "volume_button" with
     | some (Val.str a) =>
       if a == "play_pause" || a == "mute_toggle" || a == "noop" then []
       else ["buttons.volume_button must be one of: play_pause, mute_toggle, noop"]
     | _ => ["buttons.volume_button must be one of: play_pause, mute_toggle, noop"])
  | _ => ["Missing or invalid \x27buttons\x27 section (must be a mapping)"]

/-- One polling field check: `not isinstance(v, (int, float)) or v <= 0`
(or `< 0` when zero is allowed). -/
def pollingCheck (ov : Option Val) (zeroOk : Bool) (msg : String) : List String :=
  match ov.bind toNum with
  | some x => if (if zeroOk then ratLtB x 0 else ratLeB x 0) then [msg] else []
  | Option.none => [msg]

/-- The `polling` block of `_validate_rotary_config`; the last two fields
default to `0.12` and `5.0` when absent. -/
def rotaryPollingErrs (d : List (Val × Val)) : List String :=
  match dictGetS d "polling" with
  | some (Val.dict p) =>
    pollingCheck (dictGetS p "switch_poll_interval") false
      "polling.switch_poll_interval must be a number > 0" ++
    pollingCheck (dictGetS p "switch_debounce") true
      "polling.switch_debounce must be a number >= 0" ++
    pollingCheck (some ((dictGetS p "switch_stability_window").getD (Val.float (mkRat 12 100)))) true
      "polling.switch_stability_window must be a number >= 0" ++
    pollingCheck (some ((dictGetS p "invalid_code_log_interval").getD (Val.float (mkRat 5 1)))) true
      "polling.invalid_code_log_interval must be a number >= 0"
  | _ => ["Missing or invalid \x27polling\x27 section (must be a mapping)"]

/-- Embedding of `radio_lib._validate_rotary_config`. -/
def validate_rotary_config (cfg : Val) : Except PyExc (List String) :=
  match cfg with
  | Val.dict d => do
    let ctlErrs ← rotaryControlsErrs d
    pure (rotaryI2cErrs d ++ rotarySwitchesErrs d ++ rotaryEncodersErrs d ++ ctlErrs ++
      rotaryButtonsErrs d ++ rotaryPollingErrs d)
  | _ => Except.ok ["Hardware config must be a dictionary"]

/-- `needle in container` for a string needle: key membership for a dict,
substring for a string, element membership for a list; raises `TypeError`
on non-containers — exactly the operator `_validate_encoder_oled_config`
applies to unchecked section values. -/
def chsHasSub : List Char → List Char → Bool
  | hay, needle =>
    match hay with
    | [] => needle.isEmpty
    | _ :: t => chsBegins hay needle || chsHasSub t needle

/-- Python `in` for a string needle, see `chsHasSub`. -/
def pyContains (needle : String) (container : Val) : Except PyExc Bool :=
  match container with
  | Val.dict d => Except.ok (dictContainsS d needle)
  | Val.str t => Except.ok (chsHasSub t.data needle.data)
  | Val.list l =>
    Except.ok (l.any (fun v => match v with | Val.str t => t == needle | _ => false))
  | v =>
    Except.error (PyExc.typeError
      ("argument of type \x27" ++ pyTypeShort v ++ "\x27 is not iterable"))

/-- The required fields of the encoder-OLED `controls` section. -/
def encoderRequiredControls : List String :=
  ["bank_min", "bank_max", "station_min", "station_max", "volume_min", "volume_max",
   "volume_step"]

/-- The presence loop of the encoder-OLED `controls` block. -/
def encoderControlsMissing (ctl : Val) : Except PyExc (List String) :=
  encoderRequiredControls.foldlM
    (fun errs key => do
      let c ← pyContains key ctl
      pure (if c then errs else errs ++ ["Missing controls." ++ key]))
    []

/-- Embedding of `radio_lib._validate_encoder_oled_config`.  The section
checks are presence-only (`"i2c" not in cfg`), and field checks subscript the
raw section value and apply `in` to it, which raises `TypeError` when the
section holds a non-container value. -/
def validate_encoder_oled_config (cfg : Val) : Except PyExc (List String) :=
  match cfg with
  | Val.dict d => do
    let i2cErrs ←
      if dictContainsS d "i2c" then do
        let i2c ← pyGetItemS d "i2c"
        let he ← pyContains "encoder_i2c_address" i2c
        let ho ← pyContains "oled_i2c_address" i2c
        pure ((if he then [] else ["Missing i2c.encoder_i2c_address"]) ++
          (if ho then [] else ["Missing i2c.oled_i2c_address"]))
      else pure ["Missing \x27i2c\x27 section"]
    let encErrs := if dictContainsS d "encoders" then [] else ["Missing \x27encoders\x27 section"]
    let ctlErrs ←
      if dictContainsS d "controls" then do
        let ctl ← pyGetItemS d "controls"
        encoderControlsMissing ctl
      else pure ["Missing \x27controls\x27 section"]
    let btnErrs := if dictContainsS d "buttons" then [] else ["Missing \x27buttons\x27 section"]
    let dispErrs := if dictContainsS d "display" then [] else ["Missing \x27display\x27 section"]
    pure (i2cErrs ++ encErrs ++ ctlErrs ++ btnErrs ++ dispErrs)
  | _ => Except.ok ["Hardware config must be a dictionary"]

/-- Embedding of `radio_lib.validate_hardware_config`: dispatch on the
variant name; an unknown variant is a single dispatch error. -/
def validate_hardware_config (cfg : Val) (variant : String) : Except PyExc (List String) :=
  if variant == "encoder_oled" then validate_encoder_oled_config cfg
  else if variant == "rotary" then validate_rotary_config cfg
  else Except.ok ["Unknown hardware variant: " ++ variant]

/-- The per-bank check of `validate_stations_config`: a bank must be a
mapping containing a `stations` key whose value is a mapping; individual
station records are never inspected. -/
def stationsBankErrs (bankId bank : Val) : List String :=
  match bank with
  | Val.dict b =>
    (match dictGetS b "stations" with
     | Option.none => ["Bank " ++ pyStr bankId ++ " missing \x27stations\x27"]
     | some (Val.dict _) => []
     | some _ => ["Bank " ++ pyStr bankId ++ ".stations must be a dictionary"])
  | _ => ["Bank " ++ pyStr bankId ++ " must be a dictionary"]

/-- Embedding of `radio_lib.validate_stations_config`. -/
def validate_stations_config (cfg : Val) : List String :=
  match cfg with
  | Val.dict d =>
    (match dictGetS d "banks" with
     | Option.none => ["Missing \x27banks\x27 section"]
     | some (Val.dict banks) =>
       banks.foldl (fun errs kv => errs ++ stationsBankErrs kv.1 kv.2) []
     | some _ => ["\x27banks\x27 must be a dictionary"])
  | _ => ["Stations config must be a dictionary"]

/-- A rotary configuration that is valid except that
`controls.bank_min = 5 > controls.bank_max = 2`. -/
def rotaryCfgBankRange : Val :=
  Val.dict
    [(Val.str "i2c", Val.dict [(Val.str "volume_i2c_address", Val.int 73)]),
     (Val.str "switches", Val.dict
       [(Val.str "station_switch", Val.dict
          [(Val.str "bit0", Val.int 5), (Val.str "bit1", Val.int 6),
           (Val.str "bit2", Val.int 13), (Val.str "bit3", Val.int 19)]),
        (Val.str "bank_switch", Val.dict
          [(Val.str "bit0", Val.int 12), (Val.str "bit1", Val.int 16),
           (Val.str "bit2", Val.int 20), (Val.str "bit3", Val.int 21)])]),
     (Val.str "encoders", Val.dict [(Val.str "volume_encoder", Val.int 17)]),
     (Val.str "controls", Val.dict
       [(Val.str "bank_min", Val.int 5), (Val.str "bank_max", Val.int 2),
        (Val.str "station_min", Val.int 0), (Val.str "station_max", Val.int 9),
        (Val.str "volume_min", Val.int 0), (Val.str "volume_max", Val.int 100),
        (Val.str "volume_step", Val.int 5)]),
     (Val.str "buttons", Val.dict [(Val.str "volume_button", Val.str "play_pause")]),
     (Val.str "polling", Val.dict
       [(Val.str "switch_poll_interval", Val.float (mkRat 5 100)),
        (Val.str "switch_debounce", Val.float (mkRat 1 10))])]

/-- A rotary configuration that is valid except that `bank_decode_map`
contains the out-of-range raw code `16` and the out-of-range digit `10`. -/
def rotaryCfgDecodeMap : Val :=
  Val.dict
    [(Val.str "i2c", Val.dict [(Val.str "volume_i2c_address", Val.int 73)]),
     (Val.str "switches", Val.dict
       [(Val.str "station_switch", Val.dict
          [(Val.str "bit0", Val.int 5), (Val.str "bit1", Val.int 6),
           (Val.str "bit2", Val.int 13), (Val.str "bit3", Val.int 19)]),
        (Val.str "bank_switch", Val.dict
          [(Val.str "bit0", Val.int 12), (Val.str "bit1", Val.int 16),
           (Val.str "bit2", Val.int 20), (Val.str "bit3", Val.int 21)]),
        (Val.str "bank_decode_map", Val.dict
          [(Val.int 16, Val.int 5), (Val.int 3, Val.int 10), (Val.int 2, Val.int 7)])]),
     (Val.str "encoders", Val.dict [(Val.str "volume_encoder", Val.int 17)]),
     (Val.str "controls", Val.dict
       [(Val.str "bank_min", Val.int 0), (Val.str "bank_max", Val.int 9),
        (Val.str "station_min", Val.int 0), (Val.str "station_max", Val.int 9),
        (Val.str "volume_min", Val.int 0), (Val.str "volume_max", Val.int 100),
        (Val.str "volume_step", Val.int 5)]),
     (Val.str "buttons", Val.dict [(Val.str "volume_button", Val.str "play_pause")]),
     (Val.str "polling", Val.dict
       [(Val.str "switch_poll_interval", Val.float (mkRat 5 100)),
        (Val.str "switch_debounce", Val.float (mkRat 1 10))])]

/-- A stations tree whose bank 0 lacks the `stations` key while bank 1 is
well-formed (its station record deliberately not a mapping, to show the
validator does not descend into station records). -/
def stationsCfgMissing : Val :=
  Val.dict
    [(Val.str "banks", Val.dict
       [(Val.int 0, Val.dict [(Val.str "name", Val.str "News")]),
        (Val.int 1, Val.dict
          [(Val.str "name", Val.str "Music"),
           (Val.str "stations", Val.dict [(Val.int 0, Val.str "not-a-record")])])])]

/-!
State-store hygiene: the class of keys and values that the `key=value` file
format can represent faithfully.  A key or value survives the round trip when
it is unchanged by stripping and contains no line-break character; a key must
additionally contain no `=` and not begin with `#`.
-/

/-- The head, if any, is not whitespace. -/
def headOkCh : List Char → Bool
  | [] => true
  | c :: _ => !(isPySpace c)

/-- Unchanged by `str.strip`: no leading and no trailing whitespace. -/
def stripInvB (cs : List Char) : Bool := headOkCh cs && headOkCh cs.reverse

/-- No `str.splitlines` break characters. -/
def noBreakB (cs : List Char) : Bool := cs.all (fun c => !(isLineBreak c))

/-- A state-file key the format can represent. -/
def goodKeyB (s : String) : Bool :=
  stripInvB s.data && noBreakB s.data && s.data.all (fun c => c != '=') &&
  (match s.data with
   | '#' :: _ => false
   | _ => true)

/-- A state-file value the format can represent (it may contain `=`). -/
def goodValB (s : String) : Bool := stripInvB s.data && noBreakB s.data

/-- All entries of a record are representable. -/
def goodEntries (st : List (String × String)) : Bool :=
  st.all (fun kv => goodKeyB kv.1 && goodValB kv.2)

/-- Whether an optional value is a present mapping. -/
def isSomeDict : Option Val → Bool
  | some (Val.dict _) => true
  | _ => false

/-!
Sanity examples: concrete evaluations of the embedded functions.
-/

example : parse_i2c_addr (Val.str "0x49") = Except.ok 73 := by decide
example : parse_i2c_addr (Val.str " 73 ") = Except.ok 73 := by decide
example : parse_i2c_addr (Val.str "0XFF") = Except.ok 255 := by decide

example : is_command_allowed "mpc play" = true := by decide
example : is_command_allowed "  mpc volume 050  " = true := by decide
example : is_command_allowed "mpc volume 1000" = false := by decide
example : is_command_allowed "rm -rf /" = false := by decide
example : is_command_allowed "sudo shutdown -h now" = true := by decide
example : is_command_allowed "radio-play 2 7" = true := by decide
example : is_command_allowed "mpc\x0bplay" = true := by decide
example : command_to_argv "radio-play" "mpc\x0bplay" = ["mpc\x0bplay"] := by decide
example : command_to_argv "/usr/local/bin/radio-play" "radio-play 2 7" =
    ["/usr/local/bin/radio-play", "2", "7"] := by decide

example : read_state (some (write_state Option.none [("bank", "1")])) = [("bank", "1")] := by
  decide
example :
    read_state (some (write_state (some (write_state Option.none [("bank", "1")]))
      [("volume", "75")])) = [("bank", "1"), ("volume", "75")] := by decide
example : read_state (some "# comment\n\n bank = 1 \nbank=2\njunk\n") = [("bank", "2")] := by
  decide
example : read_state (some (write_state Option.none [("k", " a")])) = [("k", "a")] := by decide

example :
    validate_hardware_config rotaryCfgBankRange "rotary" =
      Except.ok ["controls.bank_min must be <= controls.bank_max"] := by decide
example :
    validate_hardware_config rotaryCfgDecodeMap "rotary" =
      Except.ok ["switches.bank_decode_map key 16 must be in range 0-15",
        "switches.bank_decode_map[3] must be in range 0-9"] := by decide
example :
    validate_stations_config stationsCfgMissing = ["Bank 0 missing \x27stations\x27"] := by
  decide
example :
    validate_hardware_config (Val.dict [(Val.str "i2c", Val.int 0)]) "encoder_oled" =
      Except.error (PyExc.typeError "argument of type \x27int\x27 is not iterable") := by
  decide
example :
    validate_hardware_config (Val.dict [(Val.str "i2c", Val.str "")]) "encoder_oled" =
      Except.ok ["Missing i2c.encoder_i2c_address", "Missing i2c.oled_i2c_address",
        "Missing \x27encoders\x27 section", "Missing \x27controls\x27 section",
        "Missing \x27buttons\x27 section", "Missing \x27display\x27 section"] := by decide
example :
    validate_hardware_config (Val.dict []) "weird" =
      Except.ok ["Unknown hardware variant: weird"] := by decide

/-!
Claim theorems.
-/

/-- C1.  `is_command_allowed` returns true exactly when the
whitespace-trimmed command fully matches one of the three fixed whitelist
patterns; in particular `mpc play` and `mpc volume 050` are allowed while
`rm -rf /` and `mpc volume 1000` are not. -/
theorem c1_command_whitelist :
    (is_command_allowed "mpc play" = true ∧
     is_command_allowed "mpc volume 050" = true ∧
     is_command_allowed "rm -rf /" = false ∧
     is_command_allowed "mpc volume 1000" = false) ∧
    ∀ s : String,
      is_command_allowed s = true ↔
        (pat_mpc (stripChars s.data) = true ∨ pat_radio_play (stripChars s.data) = true ∨
         pat_shutdown (stripChars s.data) = true) := by
  refine ⟨⟨by decide, by decide, by decide, by decide⟩, fun s => ?_⟩
  simp [is_command_allowed, ALLOWED_COMMANDS]

/-- C3.  `parse_i2c_addr` maps `"0x49"`, `"73"` and the integer 73 to 73;
a float input fails with a `TypeError` while malformed numeric text such as
`"0xZZ"` fails with a `ValueError` — two observably distinct error kinds. -/
theorem c3_i2c_parse_addr :
    parse_i2c_addr (Val.str "0x49") = Except.ok 73 ∧
    parse_i2c_addr (Val.str "73") = Except.ok 73 ∧
    parse_i2c_addr (Val.int 73) = Except.ok 73 ∧
    (∃ m, parse_i2c_addr (Val.float (mkRat 7 2)) = Except.error (PyExc.typeError m)) ∧
    (∃ m, parse_i2c_addr (Val.str "0xZZ") = Except.error (PyExc.valueError m)) ∧
    (∀ m m', PyExc.typeError m ≠ PyExc.valueError m') := by
  refine ⟨by decide, by decide, rfl, ⟨_, rfl⟩, ⟨_, rfl⟩, fun m m' h => ?_⟩
  cases h

/-- C10.  `parse_i2c_addr` is the identity on every native integer, with no
range check: negative and out-of-range addresses are returned unchanged. -/
theorem c10_i2c_identity_on_int :
    ∀ n : Int, parse_i2c_addr (Val.int n) = Except.ok n := fun _ => rfl

/-!
Helper lemmas about the rotary validator's monadic controls block.
-/

theorem except_bind_ok {ε α β : Type} (a : α) (f : α → Except ε β) :
    ((Except.ok a : Except ε α) >>= f) = f a := rfl

theorem except_map_ok {ε α β : Type} (f : α → β) (a : α) :
    (f <$> (Except.ok a : Except ε α)) = Except.ok (f a) := rfl

theorem except_pure {ε α : Type} (a : α) : (pure a : Except ε α) = Except.ok a := rfl

theorem pyGetItemS_of_get {d : List (Val × Val)} {k : String} {v : Val}
    (h : dictGetS d k = some v) : pyGetItemS d k = Except.ok v := by
  simp [pyGetItemS, h]

theorem asInt_toNum {v : Val} {a : Int} (h : asInt v = some a) :
    toNum v = some (a : ℚ) := by
  cases v <;> simp [asInt] at h
  · rename_i b
    cases b <;> simp [toNum, ← h]
  · simp [toNum, h]

theorem bind_ok_exists {ε α β : Type} {x : Except ε α} {f : α → Except ε β}
    (hx : ∃ a, x = Except.ok a) (hf : ∀ a, ∃ b, f a = Except.ok b) :
    ∃ b, (x >>= f) = Except.ok b := by
  obtain ⟨a, ha⟩ := hx
  obtain ⟨b, hb⟩ := hf a
  exact ⟨b, by rw [ha, except_bind_ok, hb]⟩

theorem map_ok_exists {ε α β : Type} {x : Except ε α} (f : α → β)
    (hx : ∃ a, x = Except.ok a) : ∃ b, (f <$> x) = Except.ok b := by
  obtain ⟨a, ha⟩ := hx
  exact ⟨f a, by rw [ha, except_map_ok]⟩

theorem bind_ok_exists1 {ε α β : Type} {x : Except ε α} {f : α → Except ε β} {a : α}
    (hx : x = Except.ok a) (hf : ∃ b, f a = Except.ok b) :
    ∃ b, (x >>= f) = Except.ok b := by
  obtain ⟨b, hb⟩ := hf
  exact ⟨b, by rw [hx, except_bind_ok, hb]⟩

theorem pyLeNum_ok {v w : Val} {x y : ℚ} (hv : toNum v = some x) (hw : toNum w = some y) :
    pyLeNum v w = Except.ok (ratLeB x y) := by
  simp [pyLeNum, hv, hw]

theorem ratLtB_intCast (x y : Int) : ratLtB (x : ℚ) (y : ℚ) = decide (x < y) := by
  simp [ratLtB]

theorem ratLeB_intCast (x y : Int) : ratLeB (x : ℚ) (y : ℚ) = decide (x ≤ y) := by
  simp [ratLeB]

/-- When both cross-field operands pass the integer test, the check compares
the two integers. -/
theorem crossErr_both {ctl : List (Val × Val)} {kmin kmax : String} {msg : String}
    {a b : Int}
    (ha : (dictGetS ctl kmin).bind asInt = some a)
    (hb : (dictGetS ctl kmax).bind asInt = some b) :
    crossErr ctl kmin kmax msg = Except.ok (if b < a then [msg] else []) := by
  obtain ⟨va, hva, hia⟩ : ∃ v, dictGetS ctl kmin = some v ∧ asInt v = some a := by
    cases h : dictGetS ctl kmin <;> simp_all
  obtain ⟨vb, hvb, hib⟩ : ∃ v, dictGetS ctl kmax = some v ∧ asInt v = some b := by
    cases h : dictGetS ctl kmax <;> simp_all
  have hta := asInt_toNum hia
  have htb := asInt_toNum hib
  simp [crossErr, ha, hb, pyGetItemS_of_get hva, pyGetItemS_of_get hvb, pyGtNum, hta, htb,
    ratLtB_intCast b a, except_bind_ok, except_map_ok, except_pure]

/-- When an operand fails the integer test, the cross-field check is not
performed. -/
theorem crossErr_skip {ctl : List (Val × Val)} {kmin kmax : String} {msg : String}
    (h : ((dictGetS ctl kmin).bind asInt).isSome = false ∨
         ((dictGetS ctl kmax).bind asInt).isSome = false) :
    crossErr ctl kmin kmax msg = Except.ok [] := by
  rcases h with h | h <;> simp [crossErr, h, except_pure]

theorem crossErr_ok (ctl : List (Val × Val)) (kmin kmax msg : String) :
    ∃ e, crossErr ctl kmin kmax msg = Except.ok e := by
  cases ha : ((dictGetS ctl kmin).bind asInt) with
  | none => exact ⟨[], crossErr_skip (Or.inl (by simp [ha]))⟩
  | some a =>
    cases hb : ((dictGetS ctl kmax).bind asInt) with
    | none => exact ⟨[], crossErr_skip (Or.inr (by simp [hb]))⟩
    | some b => exact ⟨_, crossErr_both ha hb⟩

/-- The guarded `volume_step` check of the controls block never raises. -/
theorem volumeStepErr_ok (ctl : List (Val × Val)) :
    ∃ e, volumeStepErr ctl = Except.ok e := by
  unfold volumeStepErr
  cases h : ((dictGetS ctl "volume_step").bind asInt) with
  | none => exact ⟨[], by simp [h, except_pure]⟩
  | some a =>
    obtain ⟨v, hv, hi⟩ : ∃ v, dictGetS ctl "volume_step" = some v ∧ asInt v = some a := by
      cases hh : dictGetS ctl "volume_step" <;> simp_all
    simp only [Option.isSome_some, if_true]
    exact bind_ok_exists1 (pyGetItemS_of_get hv)
      (map_ok_exists _ ⟨_, pyLeNum_ok (asInt_toNum hi) rfl⟩)

/-- The controls block of the rotary validator never raises. -/
theorem rotaryControlsErrs_ok (d : List (Val × Val)) :
    ∃ e, rotaryControlsErrs d = Except.ok e := by
  unfold rotaryControlsErrs
  cases hc : dictGetS d "controls" with
  | none => exact ⟨_, rfl⟩
  | some v =>
    cases v <;> try exact ⟨_, rfl⟩
    rename_i ctl
    refine bind_ok_exists (crossErr_ok ctl "bank_min" "bank_max" _) (fun e1 => ?_)
    refine bind_ok_exists (crossErr_ok ctl "station_min" "station_max" _) (fun e2 => ?_)
    refine bind_ok_exists (crossErr_ok ctl "volume_min" "volume_max" _) (fun e3 => ?_)
    exact map_ok_exists _ (volumeStepErr_ok ctl)

/-- The whole rotary validator never raises. -/
theorem validate_rotary_config_ok (cfg : Val) :
    ∃ errs, validate_rotary_config cfg = Except.ok errs := by
  cases cfg <;> try exact ⟨_, rfl⟩
  rename_i d
  exact map_ok_exists _ (rotaryControlsErrs_ok d)

theorem validate_hardware_config_rotary (cfg : Val) :
    validate_hardware_config cfg "rotary" = validate_rotary_config cfg := rfl

/-- C2 (amended to the rotary variant).  For every input tree the rotary
validator returns a list of error strings and never raises; and for each of
its six sections, a present but non-mapping section value yields exactly the
one section-level error, with no field-level errors beneath it.  (As
originally stated, over both variants, the claim is false: see the
counterexample on the `encoder_oled` validator.) -/
theorem c2_rotary_total_and_section_errors :
    (∀ cfg, ∃ errs, validate_hardware_config cfg "rotary" = Except.ok errs) ∧
    (∀ d v, dictGetS d "i2c" = some v → isDictB v = false →
      rotaryI2cErrs d = ["Missing or invalid \x27i2c\x27 section (must be a mapping)"]) ∧
    (∀ d v, dictGetS d "switches" = some v → isDictB v = false →
      rotarySwitchesErrs d =
        ["Missing or invalid \x27switches\x27 section (must be a mapping)"]) ∧
    (∀ d v, dictGetS d "encoders" = some v → isDictB v = false →
      rotaryEncodersErrs d =
        ["Missing or invalid \x27encoders\x27 section (must be a mapping)"]) ∧
    (∀ d v, dictGetS d "controls" = some v → isDictB v = false →
      rotaryControlsErrs d =
        Except.ok ["Missing or invalid \x27controls\x27 section (must be a mapping)"]) ∧
    (∀ d v, dictGetS d "buttons" = some v → isDictB v = false →
      rotaryButtonsErrs d =
        ["Missing or invalid \x27buttons\x27 section (must be a mapping)"]) ∧
    (∀ d v, dictGetS d "polling" = some v → isDictB v = false →
      rotaryPollingErrs d =
        ["Missing or invalid \x27polling\x27 section (must be a mapping)"]) := by
  refine ⟨fun cfg => ?_, fun d v h hv => ?_, fun d v h hv => ?_, fun d v h hv => ?_,
    fun d v h hv => ?_, fun d v h hv => ?_, fun d v h hv => ?_⟩
  · rw [validate_hardware_config_rotary]
    exact validate_rotary_config_ok cfg
  · unfold rotaryI2cErrs; rw [h]; cases v <;> simp_all [isDictB]
  · unfold rotarySwitchesErrs; rw [h]; cases v <;> simp_all [isDictB]
  · unfold rotaryEncodersErrs; rw [h]; cases v <;> simp_all [isDictB]
  · unfold rotaryControlsErrs; rw [h]; cases v <;> simp_all [isDictB]
  · unfold rotaryButtonsErrs; rw [h]; cases v <;> simp_all [isDictB]
  · unfold rotaryPollingErrs; rw [h]; cases v <;> simp_all [isDictB]

/-- Witness for C2: the amended theorem applied to a configuration whose six
sections are all present but hold integers instead of mappings. -/
theorem c2_rotary_total_and_section_errors_witness :
    (∃ errs, validate_hardware_config
      (Val.dict [(Val.str "i2c", Val.int 1)]) "rotary" = Except.ok errs) ∧
    rotaryI2cErrs [(Val.str "i2c", Val.int 1)] =
      ["Missing or invalid \x27i2c\x27 section (must be a mapping)"] ∧
    rotarySwitchesErrs [(Val.str "switches", Val.int 2)] =
      ["Missing or invalid \x27switches\x27 section (must be a mapping)"] ∧
    rotaryEncodersErrs [(Val.str "encoders", Val.int 3)] =
      ["Missing or invalid \x27encoders\x27 section (must be a mapping)"] ∧
    rotaryControlsErrs [(Val.str "controls", Val.int 4)] =
      Except.ok ["Missing or invalid \x27controls\x27 section (must be a mapping)"] ∧
    rotaryButtonsErrs [(Val.str "buttons", Val.int 5)] =
      ["Missing or invalid \x27buttons\x27 section (must be a mapping)"] ∧
    rotaryPollingErrs [(Val.str "polling", Val.int 6)] =
      ["Missing or invalid \x27polling\x27 section (must be a mapping)"] :=
  ⟨c2_rotary_total_and_section_errors.1 _,
   c2_rotary_total_and_section_errors.2.1 _ _ rfl rfl,
   c2_rotary_total_and_section_errors.2.2.1 _ _ rfl rfl,
   c2_rotary_total_and_section_errors.2.2.2.1 _ _ rfl rfl,
   c2_rotary_total_and_section_errors.2.2.2.2.1 _ _ rfl rfl,
   c2_rotary_total_and_section_errors.2.2.2.2.2.1 _ _ rfl rfl,
   c2_rotary_total_and_section_errors.2.2.2.2.2.2 _ _ rfl rfl⟩

/-- Counterexample to C2 as stated: for the `encoder_oled` variant a section
that is present but holds a non-container value makes the validator raise
`TypeError` (the Python code applies `in` to the raw section value), so the
claim "never raises an exception ... for both variants" is false. -/
theorem c2_counterexample :
    validate_hardware_config (Val.dict [(Val.str "i2c", Val.int 0)]) "encoder_oled" =
      Except.error (PyExc.typeError "argument of type \x27int\x27 is not iterable") := by
  decide

/-- C6.  A rotary config whose `controls` section has integer
`bank_min = 5 > bank_max = 2` and is otherwise valid produces exactly the one
cross-field error, without crashing; and in general each cross-field check is
skipped unless both of its operands individually pass the integer test, in
which case it compares the two integer values. -/
theorem c6_cross_field_checks :
    (validate_hardware_config rotaryCfgBankRange "rotary" =
      Except.ok ["controls.bank_min must be <= controls.bank_max"]) ∧
    (∀ (ctl : List (Val × Val)) (kmin kmax msg : String),
      (((dictGetS ctl kmin).bind asInt).isSome = false ∨
       ((dictGetS ctl kmax).bind asInt).isSome = false) →
      crossErr ctl kmin kmax msg = Except.ok []) ∧
    (∀ (ctl : List (Val × Val)) (kmin kmax msg : String) (a b : Int),
      (dictGetS ctl kmin).bind asInt = some a →
      (dictGetS ctl kmax).bind asInt = some b →
      crossErr ctl kmin kmax msg = Except.ok (if b < a then [msg] else [])) :=
  ⟨by decide, fun ctl kmin kmax msg h => crossErr_skip h,
   fun ctl kmin kmax msg a b ha hb => crossErr_both ha hb⟩

/-- Witness for C6: the guard conjuncts applied to concrete `controls`
sections, one with a non-integer `bank_min` (the check is skipped) and one
with `bank_min = 5 > bank_max = 2` (the check fires). -/
theorem c6_cross_field_checks_witness :
    crossErr [(Val.str "bank_min", Val.str "five"), (Val.str "bank_max", Val.int 2)]
      "bank_min" "bank_max" "controls.bank_min must be <= controls.bank_max" =
      Except.ok [] ∧
    crossErr [(Val.str "bank_min", Val.int 5), (Val.str "bank_max", Val.int 2)]
      "bank_min" "bank_max" "controls.bank_min must be <= controls.bank_max" =
      Except.ok ["controls.bank_min must be <= controls.bank_max"] :=
  ⟨c6_cross_field_checks.2.1 _ _ _ _ (Or.inl rfl),
   by simpa using
     (c6_cross_field_checks.2.2
       [(Val.str "bank_min", Val.int 5), (Val.str "bank_max", Val.int 2)]
       "bank_min" "bank_max" "controls.bank_min must be <= controls.bank_max" 5 2 rfl rfl)⟩

/-- An error-accumulating `foldl` is the concatenation of the per-element
errors. -/
theorem foldl_append_eq {α β : Type} (f : α → List β) (xs : List α) (acc : List β) :
    xs.foldl (fun e x => e ++ f x) acc = acc ++ (xs.map f).flatten := by
  induction xs generalizing acc with
  | nil => simp
  | cons x xs ih => simp [ih, List.append_assoc]

/-- C7.  A present decode map is checked entry by entry, in input order, each
entry contributing its own errors independently (raw-key errors first): raw
code 16 yields its own range error, decoded digit 10 its own, a valid entry
none, and both errors are reported for an entry violating both; an absent
decode map contributes no errors; a full otherwise-valid configuration
reports exactly the two entry errors of its decode map. -/
theorem c7_decode_map_entries :
    (∀ (name : String) (entries : List (Val × Val)),
      decodeLoopErrs name entries =
        (entries.map (fun kv => decodeEntryErrs name kv.1 kv.2)).flatten) ∧
    (∀ (sw : List (Val × Val)) (name : String),
      dictGetS sw name = Option.none → decodeMapErrs name sw = []) ∧
    decodeEntryErrs "bank_decode_map" (Val.int 16) (Val.int 5) =
      ["switches.bank_decode_map key 16 must be in range 0-15"] ∧
    decodeEntryErrs "bank_decode_map" (Val.int 3) (Val.int 10) =
      ["switches.bank_decode_map[3] must be in range 0-9"] ∧
    decodeEntryErrs "bank_decode_map" (Val.int 3) (Val.int 7) = [] ∧
    decodeEntryErrs "bank_decode_map" (Val.int 16) (Val.int 10) =
      ["switches.bank_decode_map key 16 must be in range 0-15",
       "switches.bank_decode_map[16] must be in range 0-9"] ∧
    validate_hardware_config rotaryCfgDecodeMap "rotary" =
      Except.ok ["switches.bank_decode_map key 16 must be in range 0-15",
        "switches.bank_decode_map[3] must be in range 0-9"] := by
  refine ⟨fun name entries => foldl_append_eq _ entries [], fun sw name h => ?_,
    by decide, by decide, by decide, by decide, by decide⟩
  unfold decodeMapErrs
  rw [h]

/-- Witness for C7: an absent `bank_decode_map` contributes no errors. -/
theorem c7_decode_map_entries_witness :
    decodeMapErrs "bank_decode_map" [(Val.str "station_switch", Val.int 0)] = [] :=
  c7_decode_map_entries.2.1 [(Val.str "station_switch", Val.int 0)] "bank_decode_map" rfl

/-!
Lemmas about stripping, shlex tokenisation and the whitelist patterns,
leading to claim C9.
-/

theorem chompLit_some {l cs r : List Char} (h : chompLit l cs = some r) : cs = l ++ r := by
  induction l generalizing cs with
  | nil => simp [chompLit] at h; simp [h]
  | cons a l ih =>
    cases cs with
    | nil => simp [chompLit] at h
    | cons c cs =>
      by_cases hc : c = a
      · subst hc
        simp [chompLit] at h
        simp [ih h]
      · simp [chompLit, hc] at h

theorem wsPlus_some {cs r : List Char} (h : wsPlus cs = some r) :
    ∃ c t, cs = c :: t ∧ isPySpace c = true := by
  cases cs with
  | nil => simp [wsPlus] at h
  | cons c t =>
    by_cases hc : isPySpace c
    · exact ⟨c, t, rfl, hc⟩
    · simp [wsPlus, hc] at h

/-- Every string is its leading whitespace, its stripped core, and its
trailing whitespace. -/
theorem strip_decomp (cs : List Char) :
    ∃ pre suf, cs = pre ++ stripChars cs ++ suf ∧
      (∀ c ∈ pre, isPySpace c = true) ∧ (∀ c ∈ suf, isPySpace c = true) := by
  have h2 : cs.dropWhile isPySpace =
      stripChars cs ++ ((cs.dropWhile isPySpace).reverse.takeWhile isPySpace).reverse := by
    rw [stripChars, ← List.reverse_append, List.takeWhile_append_dropWhile,
      List.reverse_reverse]
  refine ⟨cs.takeWhile isPySpace,
    ((cs.dropWhile isPySpace).reverse.takeWhile isPySpace).reverse, ?_, ?_, ?_⟩
  · conv_lhs => rw [← List.takeWhile_append_dropWhile (p := isPySpace) (l := cs), h2]
    rw [List.append_assoc]
  · exact fun c hc => List.mem_takeWhile_imp hc
  · intro c hc
    rw [List.mem_reverse] at hc
    exact List.mem_takeWhile_imp hc

theorem splitTokens_nil : splitTokens [] = [] := rfl

theorem splitTokens_cons (c : Char) (cs : List Char) :
    splitTokens (c :: cs) =
      (if isShlexSpace c then [] :: splitTokens cs
       else
         match splitTokens cs with
         | [] => [[c]]
         | g :: gs => (c :: g) :: gs) := rfl

theorem shlexTokens_cons_space {c : Char} (cs : List Char) (h : isShlexSpace c = true) :
    shlexTokens (c :: cs) = shlexTokens cs := by
  simp [shlexTokens, splitTokens_cons, h, List.filter]

theorem shlexTokens_dropPre {pre : List Char} (cs : List Char)
    (h : ∀ c ∈ pre, isShlexSpace c = true) :
    shlexTokens (pre ++ cs) = shlexTokens cs := by
  induction pre with
  | nil => rfl
  | cons p pre ih =>
    rw [List.cons_append, shlexTokens_cons_space _ (h p (by simp))]
    exact ih (fun c hc => h c (by simp [hc]))

/-- A maximal non-whitespace run followed by a separator is the first
token. -/
theorem splitTokens_word (w : List Char) {c : Char} (rest : List Char)
    (hw : ∀ x ∈ w, isShlexSpace x = false) (hc : isShlexSpace c = true) :
    splitTokens (w ++ c :: rest) = w :: splitTokens rest := by
  induction w with
  | nil => simp [splitTokens_cons, hc]
  | cons a w ih =>
    have ha : isShlexSpace a = false := hw a (by simp)
    have ih' := ih (fun x hx => hw x (by simp [hx]))
    rw [List.cons_append, splitTokens_cons, ih']
    simp [ha]

theorem shlexTokens_word {w : List Char} {c : Char} (rest : List Char) (hne : w ≠ [])
    (hw : ∀ x ∈ w, isShlexSpace x = false) (hc : isShlexSpace c = true) :
    shlexTokens (w ++ c :: rest) = w :: shlexTokens rest := by
  rw [shlexTokens, splitTokens_word w rest hw hc]
  cases w with
  | nil => exact absurd rfl hne
  | cons a w => simp [List.filter, shlexTokens]

theorem shlexTokens_ne_nil {cs : List Char} (h : ∃ x ∈ cs, isShlexSpace x = false) :
    shlexTokens cs ≠ [] := by
  induction cs with
  | nil => simp at h
  | cons c cs ih =>
    obtain ⟨x, hx, hxs⟩ := h
    by_cases hc : isShlexSpace c
    · rw [shlexTokens_cons_space cs hc]
      rcases List.mem_cons.1 hx with hx | hx
      · subst hx; simp [hc] at hxs
      · exact ih ⟨x, hx, hxs⟩
    · rw [shlexTokens, splitTokens_cons]
      simp only [hc, if_false]
      cases hsp : splitTokens cs with
      | nil => simp [List.filter]
      | cons g gs => simp [List.filter]

/-- Structure of a string accepted by the `mpc` pattern: the literal `mpc`,
then a `\s` character. -/
theorem pat_mpc_struct {t : List Char} (h : pat_mpc t = true) :
    ∃ c tail, t = "mpc".data ++ c :: tail ∧ isPySpace c = true := by
  unfold pat_mpc at h
  cases h1 : chompLit "mpc".data t with
  | none => simp [h1] at h
  | some r1 =>
    simp only [h1] at h
    cases h2 : wsPlus r1 with
    | none => simp [h2] at h
    | some r2 =>
      obtain ⟨c, t', ht', hc⟩ := wsPlus_some h2
      exact ⟨c, t', by rw [chompLit_some h1, ht'], hc⟩

/-- Structure of a string accepted by the `radio-play` pattern. -/
theorem pat_radio_play_struct {t : List Char} (h : pat_radio_play t = true) :
    ∃ c tail, t = "radio-play".data ++ c :: tail ∧ isPySpace c = true := by
  unfold pat_radio_play at h
  cases h1 : chompLit "radio-play".data t with
  | none => simp [h1] at h
  | some r1 =>
    simp only [h1] at h
    cases h2 : wsPlus r1 with
    | none => simp [h2] at h
    | some r2 =>
      obtain ⟨c, t', ht', hc⟩ := wsPlus_some h2
      exact ⟨c, t', by rw [chompLit_some h1, ht'], hc⟩

/-- Structure of a string accepted by the `sudo shutdown` pattern. -/
theorem pat_shutdown_struct {t : List Char} (h : pat_shutdown t = true) :
    ∃ c tail, t = "sudo".data ++ c :: tail ∧ isPySpace c = true := by
  unfold pat_shutdown at h
  cases h1 : chompLit "sudo".data t with
  | none => simp [h1] at h
  | some r1 =>
    simp only [h1] at h
    cases h2 : wsPlus r1 with
    | none => simp [h2] at h
    | some r2 =>
      obtain ⟨c, t', ht', hc⟩ := wsPlus_some h2
      exact ⟨c, t', by rw [chompLit_some h1, ht'], hc⟩

/-- C9 (amended).  Every authorized command lexes to a non-empty argument
vector; and whenever the command's whitespace consists of shlex separators
(space, tab, CR, LF) — rather than the larger regex class `\s` — the leading
executable is `mpc`, `sudo`, or the configured radio-play alias.  (As
originally stated, without the whitespace proviso, the claim is false: see
the counterexample with a vertical tab.) -/
theorem c9_argv_of_allowed (rp s : String) (hallow : is_command_allowed s = true) :
    command_to_argv rp s ≠ [] ∧
    ((∀ c ∈ s.data, isPySpace c = true → isShlexSpace c = true) →
      ∃ rest, command_to_argv rp s = "mpc" :: rest ∨ command_to_argv rp s = "sudo" :: rest ∨
        command_to_argv rp s = rp :: rest) := by
  have hpat : pat_mpc (stripChars s.data) = true ∨ pat_radio_play (stripChars s.data) = true ∨
      pat_shutdown (stripChars s.data) = true := by
    simpa [is_command_allowed, ALLOWED_COMMANDS] using hallow
  obtain ⟨pre, suf, hdecomp, hpre, hsuf⟩ := strip_decomp s.data
  have hcore : ∃ (w : List Char) (c : Char) (tail : List Char),
      stripChars s.data = w ++ c :: tail ∧ isPySpace c = true ∧ w ≠ [] ∧
      (∀ x ∈ w, isShlexSpace x = false) ∧
      ((⟨w⟩ : String) = "mpc" ∨ (⟨w⟩ : String) = "sudo" ∨ (⟨w⟩ : String) = "radio-play") := by
    rcases hpat with h | h | h
    · obtain ⟨c, tail, ht, hc⟩ := pat_mpc_struct h
      exact ⟨"mpc".data, c, tail, ht, hc, by decide, by decide, Or.inl rfl⟩
    · obtain ⟨c, tail, ht, hc⟩ := pat_radio_play_struct h
      exact ⟨"radio-play".data, c, tail, ht, hc, by decide, by decide, Or.inr (Or.inr rfl)⟩
    · obtain ⟨c, tail, ht, hc⟩ := pat_shutdown_struct h
      exact ⟨"sudo".data, c, tail, ht, hc, by decide, by decide, Or.inr (Or.inl rfl)⟩
  obtain ⟨w, c, tail, ht, hcps, hwne, hwns, hw3⟩ := hcore
  have hsdata : s.data = pre ++ (w ++ c :: (tail ++ suf)) := by
    conv_lhs => rw [hdecomp, ht]
    simp [List.append_assoc]
  have hne : command_to_argv rp s ≠ [] := by
    have hmem : ∃ x ∈ s.data, isShlexSpace x = false := by
      cases w with
      | nil => exact absurd rfl hwne
      | cons a w' =>
        refine ⟨a, ?_, hwns a (by simp)⟩
        rw [hsdata]
        simp
    have htok := shlexTokens_ne_nil hmem
    unfold command_to_argv shlexSplit
    cases hts : shlexTokens s.data with
    | nil => exact absurd hts htok
    | cons a rest => simp
  refine ⟨hne, fun hch => ?_⟩
  have hpre' : ∀ x ∈ pre, isShlexSpace x = true := fun x hx =>
    hch x (by rw [hsdata]; simp [hx]) (hpre x hx)
  have hcs : isShlexSpace c = true := hch c (by rw [hsdata]; simp) hcps
  have htoks : shlexTokens s.data = w :: shlexTokens (tail ++ suf) := by
    rw [hsdata, shlexTokens_dropPre _ hpre', shlexTokens_word _ hwne hwns hcs]
  have hsplit : shlexSplit s = (⟨w⟩ : String) :: (shlexTokens (tail ++ suf)).map
      (fun g => (⟨g⟩ : String)) := by
    rw [shlexSplit, htoks, List.map]
  refine ⟨(shlexTokens (tail ++ suf)).map (fun g => (⟨g⟩ : String)), ?_⟩
  rcases hw3 with hw | hw | hw
  · refine Or.inl ?_
    rw [command_to_argv, hsplit, hw]
    simp
  · refine Or.inr (Or.inl ?_)
    rw [command_to_argv, hsplit, hw]
    simp
  · refine Or.inr (Or.inr ?_)
    rw [command_to_argv, hsplit, hw]
    simp

/-- Witness for C9: the amended theorem applied to the allowed command
`" mpc  play"` (whose whitespace is all shlex whitespace) with the default
alias configuration. -/
theorem c9_argv_of_allowed_witness :
    command_to_argv "radio-play" " mpc  play" ≠ [] ∧
    (∃ rest, command_to_argv "radio-play" " mpc  play" = "mpc" :: rest ∨
      command_to_argv "radio-play" " mpc  play" = "sudo" :: rest ∨
      command_to_argv "radio-play" " mpc  play" = "radio-play" :: rest) :=
  ⟨(c9_argv_of_allowed "radio-play" " mpc  play" (by decide)).1,
   (c9_argv_of_allowed "radio-play" " mpc  play" (by decide)).2 (by decide)⟩

/-- Counterexample to C9 as stated: `"mpc\x0bplay"` (with a vertical tab,
which the regex class `\s` matches but `shlex.whitespace` does not) is
authorized, yet it lexes to the single argument `"mpc\x0bplay"`, which is
neither `mpc` nor `sudo` nor the radio-play alias. -/
theorem c9_counterexample :
    is_command_allowed "mpc\x0bplay" = true ∧
    command_to_argv "radio-play" "mpc\x0bplay" = ["mpc\x0bplay"] ∧
    ("mpc\x0bplay" : String) ≠ "mpc" ∧ ("mpc\x0bplay" : String) ≠ "sudo" ∧
    ("mpc\x0bplay" : String) ≠ "radio-play" := by
  refine ⟨by decide, by decide, by decide, by decide, by decide⟩

theorem dropWhile_eq_self_of_headOk {cs : List Char} (h : headOkCh cs = true) :
    cs.dropWhile isPySpace = cs := by
  cases cs with
  | nil => rfl
  | cons c cs =>
    simp [headOkCh] at h
    simp [List.dropWhile_cons, h]

theorem stripChars_eq_self {cs : List Char} (h : stripInvB cs = true) :
    stripChars cs = cs := by
  rw [stripInvB, Bool.and_eq_true] at h
  obtain ⟨h1, h2⟩ := h
  rw [stripChars, dropWhile_eq_self_of_headOk h1, dropWhile_eq_self_of_headOk h2,
    List.reverse_reverse]

theorem headOkCh_dropWhile (cs : List Char) :
    headOkCh (cs.dropWhile isPySpace) = true := by
  induction cs with
  | nil => rfl
  | cons c cs ih =>
    rw [List.dropWhile_cons]
    by_cases hc : isPySpace c
    · simpa [hc] using ih
    · simp [hc, headOkCh]

theorem headOk_of_prefix {l m : List Char} (h : l <+: m) (hm : headOkCh m = true) :
    headOkCh l = true := by
  obtain ⟨t, ht⟩ := h
  cases l with
  | nil => rfl
  | cons c l =>
    subst ht
    simpa [headOkCh] using hm

theorem stripChars_prefix_of_headOk {cs : List Char} (h : headOkCh cs = true) :
    stripChars cs <+: cs := by
  rw [stripChars, dropWhile_eq_self_of_headOk h]
  have := List.dropWhile_suffix (l := cs.reverse) (p := isPySpace)
  rw [← List.reverse_prefix] at this
  simpa using this

theorem stripChars_stripInv (cs : List Char) : stripInvB (stripChars cs) = true := by
  rw [stripInvB, Bool.and_eq_true]
  constructor
  · exact headOk_of_prefix
      (by
        rw [stripChars]
        have := List.dropWhile_suffix (l := (cs.dropWhile isPySpace).reverse) (p := isPySpace)
        rw [← List.reverse_prefix] at this
        simpa using this)
      (headOkCh_dropWhile cs)
  · rw [stripChars, List.reverse_reverse]
    exact headOkCh_dropWhile _

theorem mem_stripChars {c : Char} {cs : List Char} (h : c ∈ stripChars cs) : c ∈ cs := by
  rw [stripChars] at h
  rw [List.mem_reverse] at h
  have h2 := (List.dropWhile_sublist (l := (cs.dropWhile isPySpace).reverse)
    (p := isPySpace)).mem h
  rw [List.mem_reverse] at h2
  exact (List.dropWhile_sublist (l := cs) (p := isPySpace)).mem h2

theorem splitLinesCore_cons_nb {c : Char} (acc : List Char) (afterCr : Bool)
    (rest : List Char) (hc : isLineBreak c = false) :
    splitLinesCore acc afterCr (c :: rest) = splitLinesCore (c :: acc) false rest := by
  have hn : c ≠ '\n' := by
    intro h; subst h; simp [isLineBreak] at hc
  have hr : c ≠ '\r' := by
    intro h; subst h; simp [isLineBreak] at hc
  rw [splitLinesCore]
  simp [hn, hr, hc]

/-- A break-free segment closed by `\n` is the next line. -/
theorem splitLinesCore_line (l : List Char) (acc rest : List Char)
    (hl : ∀ c ∈ l, isLineBreak c = false) :
    splitLinesCore acc false (l ++ '\n' :: rest) =
      (acc.reverse ++ l) :: splitLinesCore [] false rest := by
  induction l generalizing acc with
  | nil =>
    rw [List.nil_append, splitLinesCore]
    simp [isLineBreak]
  | cons a l ih =>
    have ha : isLineBreak a = false := hl a (by simp)
    rw [List.cons_append, splitLinesCore_cons_nb _ _ _ ha,
      ih _ (fun c hc => hl c (by simp [hc]))]
    simp

/-- Every line produced by `splitlines` is break-free. -/
theorem splitLinesCore_no_break :
    ∀ (cs acc : List Char) (afterCr : Bool),
      (∀ c ∈ acc, isLineBreak c = false) →
      ∀ l ∈ splitLinesCore acc afterCr cs, ∀ c ∈ l, isLineBreak c = false := by
  intro cs
  induction cs with
  | nil =>
    intro acc afterCr hacc l hl c hc
    rw [splitLinesCore] at hl
    split at hl
    · simp at hl
    · simp at hl
      subst hl
      exact hacc c (by simpa using hc)
  | cons a cs ih =>
    intro acc afterCr hacc l hl c hc
    rw [splitLinesCore] at hl
    by_cases h1 : afterCr && a = '\n'
    · rw [if_pos h1] at hl
      exact ih acc false hacc l hl c hc
    · rw [if_neg h1] at hl
      by_cases h2 : a = '\r'
      · rw [if_pos h2] at hl
        rcases List.mem_cons.1 hl with h | h
        · subst h
          exact hacc c (by simpa using hc)
        · exact ih [] true (by simp) l h c hc
      · rw [if_neg h2] at hl
        by_cases h3 : isLineBreak a
        · rw [if_pos h3] at hl
          rcases List.mem_cons.1 hl with h | h
          · subst h
            exact hacc c (by simpa using hc)
          · exact ih [] false (by simp) l h c hc
        · rw [if_neg h3] at hl
          refine ih (a :: acc) false ?_ l hl c hc
          intro x hx
          rcases List.mem_cons.1 hx with h | h
          · subst h
            simpa using h3
          · exact hacc x h

theorem takeWhile_append_stop {p : Char → Bool} {a : List Char} {b : Char} (l : List Char)
    (ha : ∀ c ∈ a, p c = true) (hb : p b = false) :
    (a ++ b :: l).takeWhile p = a := by
  induction a with
  | nil => simp [List.takeWhile_cons, hb]
  | cons x a ih =>
    rw [List.cons_append, List.takeWhile_cons, ha x (by simp)]
    rw [ih (fun c hc => ha c (by simp [hc]))]
    simp

theorem dropWhile_append_stop {p : Char → Bool} {a : List Char} {b : Char} (l : List Char)
    (ha : ∀ c ∈ a, p c = true) (hb : p b = false) :
    (a ++ b :: l).dropWhile p = b :: l := by
  induction a with
  | nil => simp [List.dropWhile_cons, hb]
  | cons x a ih =>
    rw [List.cons_append, List.dropWhile_cons, ha x (by simp)]
    simp only [if_true]
    exact ih (fun c hc => ha c (by simp [hc]))

theorem headOkCh_append {a b : List Char} :
    headOkCh (a ++ b) = (if a.isEmpty then headOkCh b else headOkCh a) := by
  cases a <;> simp [headOkCh]

/-- A hygienic `key=value` line parses back to its key and value. -/
theorem stateLineEntry_mk {k v : String} (hk : goodKeyB k = true) (hv : goodValB v = true) :
    stateLineEntry (k.data ++ '=' :: v.data) = some (k, v) := by
  rw [goodKeyB] at hk
  rw [goodValB] at hv
  simp only [Bool.and_eq_true] at hk hv
  obtain ⟨⟨⟨hkinv, hkbrk⟩, hkeq⟩, hkhash⟩ := hk
  obtain ⟨hvinv, hvbrk⟩ := hv
  simp only [List.all_eq_true] at hkeq
  rw [stripInvB, Bool.and_eq_true] at hkinv hvinv
  have hline : stripInvB (k.data ++ '=' :: v.data) = true := by
    rw [stripInvB, Bool.and_eq_true]
    constructor
    · rw [headOkCh_append]
      cases hkd : k.data with
      | nil => simp [headOkCh, isPySpace]
      | cons c cs =>
        have := hkinv.1
        rw [hkd] at this
        simpa using this
    · rw [List.reverse_append, List.reverse_cons, List.append_assoc, headOkCh_append]
      cases hvd : v.data.reverse with
      | nil => simp [headOkCh, isPySpace]
      | cons c cs =>
        have := hvinv.2
        rw [hvd] at this
        simpa using this
  have hstrip := stripChars_eq_self hline
  have htake : (k.data ++ '=' :: v.data).takeWhile (fun c => c != '=') = k.data :=
    takeWhile_append_stop v.data (fun c hc => by simpa using hkeq c hc) (by simp)
  have hdrop : (k.data ++ '=' :: v.data).dropWhile (fun c => c != '=') = '=' :: v.data :=
    dropWhile_append_stop v.data (fun c hc => by simpa using hkeq c hc) (by simp)
  rw [stateLineEntry, hstrip]
  rw [if_pos ?_]
  · rw [htake, hdrop]
    simp only [List.drop_succ_cons, List.drop_zero]
    rw [stripChars_eq_self (by rw [stripInvB, Bool.and_eq_true]; exact hkinv),
      stripChars_eq_self (by rw [stripInvB, Bool.and_eq_true]; exact hvinv)]
  · simp only [Bool.and_eq_true]
    refine ⟨⟨?_, ?_⟩, ?_⟩
    · cases hkd : k.data <;> simp [hkd]
    · simp
    · cases hkd : k.data with
      | nil => simp
      | cons c cs =>
        have := hkhash
        rw [hkd] at this
        have hch : c ≠ '#' := by
          intro h
          subst h
          simp at this
        simp [hch]

theorem serializeCh_cons (k v : String) (st : List (String × String)) :
    serializeCh ((k, v) :: st) =
      (k.data ++ '=' :: v.data) ++ '\n' :: serializeCh st := by
  simp [serializeCh, List.append_assoc]

theorem line_no_break {k v : String} (hk : goodKeyB k = true) (hv : goodValB v = true) :
    ∀ c ∈ k.data ++ '=' :: v.data, isLineBreak c = false := by
  intro c hc
  rw [goodKeyB] at hk
  rw [goodValB] at hv
  simp only [Bool.and_eq_true] at hk hv
  have hkb := hk.1.1.2
  have hvb := hv.2
  rw [noBreakB, List.all_eq_true] at hkb hvb
  rcases List.mem_append.1 hc with h | h
  · simpa using hkb c h
  · rcases List.mem_cons.1 h with h | h
    · subst h
      decide
    · simpa using hvb c h

/-- The serialization of a hygienic record splits back into its lines. -/
theorem splitLines_serializeCh {st : List (String × String)}
    (h : goodEntries st = true) :
    splitLines (serializeCh st) = st.map (fun kv => kv.1.data ++ '=' :: kv.2.data) := by
  induction st with
  | nil => rfl
  | cons kv st ih =>
    rw [goodEntries, List.all_cons, Bool.and_eq_true] at h
    obtain ⟨hkv, hst⟩ := h
    rw [Bool.and_eq_true] at hkv
    obtain ⟨k, v⟩ := kv
    rw [serializeCh_cons, splitLines, splitLinesCore_line _ _ _ (line_no_break hkv.1 hkv.2)]
    rw [List.reverse_nil, List.nil_append, List.map_cons]
    exact congrArg _ (ih hst)

/-- Folding the parsed lines of a hygienic serialization performs exactly the
dictionary update. -/
theorem foldl_lines_serialize {st : List (String × String)} (h : goodEntries st = true) :
    ∀ d, List.foldl
        (fun st l =>
          match stateLineEntry l with
          | some kv => dictSetS st kv.1 kv.2
          | Option.none => st)
        d (st.map (fun kv => kv.1.data ++ '=' :: kv.2.data)) = dictUpdateS d st := by
  induction st with
  | nil => intro d; rfl
  | cons kv st ih =>
    intro d
    rw [goodEntries, List.all_cons, Bool.and_eq_true] at h
    obtain ⟨hkv, hst⟩ := h
    rw [Bool.and_eq_true] at hkv
    obtain ⟨k, v⟩ := kv
    rw [List.map_cons, List.foldl_cons, stateLineEntry_mk hkv.1 hkv.2]
    exact ih hst (dictSetS d k v)

theorem read_state_serializeCh {st : List (String × String)} (h : goodEntries st = true) :
    read_state (some ⟨serializeCh st⟩) = dictUpdateS [] st := by
  rw [read_state]
  rw [show (⟨serializeCh st⟩ : String).data = serializeCh st from rfl]
  rw [splitLines_serializeCh h]
  exact foldl_lines_serialize h []

theorem dictSetS_fresh {d : List (String × String)} {k : String} (v : String)
    (h : containsS d k = false) : dictSetS d k v = d ++ [(k, v)] := by
  induction d with
  | nil => rfl
  | cons kv d ih =>
    rw [containsS, lookupS] at h
    by_cases hk : kv.1 == k
    · rw [if_pos hk] at h
      simp at h
    · rw [if_neg hk] at h
      rw [dictSetS, if_neg hk, ih h, List.cons_append]

theorem containsS_append_single (d : List (String × String)) (k x v : String) :
    containsS (d ++ [(k, v)]) x = (containsS d x || (k == x)) := by
  induction d with
  | nil => by_cases h : k = x <;> simp [containsS, lookupS, h]
  | cons kv d ih =>
    by_cases hk : kv.1 == x
    · simp [containsS, lookupS, hk]
    · simpa [containsS, lookupS, hk] using ih

theorem dictUpdateS_app_fresh :
    ∀ (u d : List (String × String)), (u.map Prod.fst).Nodup →
      (∀ kv ∈ u, containsS d kv.1 = false) → dictUpdateS d u = d ++ u := by
  intro u
  induction u with
  | nil => intro d _ _; simp [dictUpdateS]
  | cons kv u ih =>
    intro d hnd hfresh
    obtain ⟨k, v⟩ := kv
    rw [List.map_cons, List.nodup_cons] at hnd
    rw [show dictUpdateS d ((k, v) :: u) = dictUpdateS (dictSetS d k v) u from rfl]
    rw [dictSetS_fresh v (hfresh (k, v) (by simp))]
    rw [ih (d ++ [(k, v)]) hnd.2 ?_]
    · rw [List.append_assoc, List.singleton_append]
    · intro kv' hkv'
      rw [containsS_append_single, Bool.or_eq_false_iff]
      refine ⟨hfresh kv' (by simp [hkv']), ?_⟩
      have : kv'.1 ≠ k := by
        intro h
        have hm : kv'.1 ∈ u.map Prod.fst := List.mem_map.2 ⟨kv', hkv', rfl⟩
        exact hnd.1 (h ▸ hm)
      simpa using fun h => this (by simpa using h.symm)

theorem dictUpdateS_nil_of_nodup {u : List (String × String)}
    (h : (u.map Prod.fst).Nodup) : dictUpdateS [] u = u := by
  rw [dictUpdateS_app_fresh u [] h (fun kv _ => rfl), List.nil_append]

theorem dictSetS_good {k v : String} (hk : goodKeyB k = true) (hv : goodValB v = true) :
    ∀ d, goodEntries d = true → goodEntries (dictSetS d k v) = true := by
  intro d
  induction d with
  | nil => intro _; simp [dictSetS, goodEntries, hk, hv]
  | cons kv d ih =>
    intro hd
    rw [goodEntries, List.all_cons, Bool.and_eq_true] at hd
    rw [dictSetS]
    by_cases h : kv.1 == k
    · rw [if_pos h]
      simp [goodEntries, List.all_cons, hk, hv, hd.2]
    · rw [if_neg h]
      have := ih hd.2
      rw [goodEntries] at this ⊢
      simp [List.all_cons, hd.1, this]

theorem keys_dictSetS {k v : String} :
    ∀ (d : List (String × String)) (x : String),
      x ∈ (dictSetS d k v).map Prod.fst ↔ x ∈ d.map Prod.fst ∨ x = k := by
  intro d
  induction d with
  | nil => intro x; simp [dictSetS]
  | cons kv d ih =>
    intro x
    rw [dictSetS]
    by_cases h : kv.1 == k
    · rw [if_pos h]
      have he : kv.1 = k := by simpa using h
      simp [he]
      tauto
    · rw [if_neg h]
      simp [ih]
      tauto

theorem dictSetS_nodup {k v : String} :
    ∀ d, (d.map Prod.fst).Nodup → ((dictSetS d k v).map Prod.fst).Nodup := by
  intro d
  induction d with
  | nil => intro _; simp [dictSetS]
  | cons kv d ih =>
    intro hd
    rw [List.map_cons, List.nodup_cons] at hd
    rw [dictSetS]
    by_cases h : kv.1 == k
    · rw [if_pos h]
      have he : kv.1 = k := by simpa using h
      rw [List.map_cons, List.nodup_cons]
      exact ⟨he ▸ hd.1, hd.2⟩
    · rw [if_neg h]
      rw [List.map_cons, List.nodup_cons]
      refine ⟨?_, ih hd.2⟩
      rw [keys_dictSetS]
      rintro (hmem | heq)
      · exact hd.1 hmem
      · exact h (by simp [heq])

/-- Every entry parsed from a break-free line is hygienic. -/
theorem stateLineEntry_good {l : List Char} {k v : String}
    (hbrk : ∀ c ∈ l, isLineBreak c = false)
    (h : stateLineEntry l = some (k, v)) : goodKeyB k = true ∧ goodValB v = true := by
  rw [stateLineEntry] at h
  split at h
  case isFalse => simp at h
  case isTrue hcond =>
    simp only [Bool.and_eq_true] at hcond
    obtain ⟨⟨hne, hceq⟩, hnh⟩ := hcond
    have hpair := Option.some.inj h
    have hk : k = ⟨stripChars ((stripChars l).takeWhile (fun c => c != '='))⟩ :=
      (congrArg Prod.fst hpair).symm
    have hv : v = ⟨stripChars (((stripChars l).dropWhile (fun c => c != '=')).drop 1)⟩ :=
      (congrArg Prod.snd hpair).symm
    have hlinebrk : ∀ c ∈ stripChars l, isLineBreak c = false :=
      fun c hc => hbrk c (mem_stripChars hc)
    have hlineinv := stripChars_stripInv l
    rw [stripInvB, Bool.and_eq_true] at hlineinv
    constructor
    · rw [hk, goodKeyB]
      simp only [Bool.and_eq_true]
      refine ⟨⟨⟨stripChars_stripInv _, ?_⟩, ?_⟩, ?_⟩
      · rw [noBreakB, List.all_eq_true]
        intro c hc
        have hc1 := mem_stripChars hc
        have hc2 := (List.takeWhile_sublist (p := fun c => c != '=')).mem hc1
        simpa using hlinebrk c hc2
      · rw [List.all_eq_true]
        intro c hc
        have h1 := mem_stripChars hc
        exact List.mem_takeWhile_imp (p := fun c => c != '=') (l := stripChars l) h1
      · cases hsa : stripChars ((stripChars l).takeWhile (fun c => c != '=')) with
        | nil => simp
        | cons c cs =>
          cases hline : stripChars l with
          | nil =>
            rw [hline] at hsa
            simp [stripChars] at hsa
          | cons c0 rest =>
            have hc0h : c0 ≠ '#' := by
              intro h0
              rw [hline, h0] at hnh
              simp at hnh
            by_cases h0 : (c0 != '=')
            · have hta : (stripChars l).takeWhile (fun c => c != '=') =
                  c0 :: rest.takeWhile (fun c => c != '=') := by
                rw [hline, List.takeWhile_cons, if_pos h0]
              have hheadok : headOkCh ((stripChars l).takeWhile (fun c => c != '=')) = true := by
                rw [hta, headOkCh]
                have := hlineinv.1
                rw [hline, headOkCh] at this
                exact this
              have hpre := stripChars_prefix_of_headOk hheadok
              rw [hsa, hta] at hpre
              obtain ⟨t, ht⟩ := hpre
              have : c = c0 := by
                have := congrArg (fun l => l.head?) ht
                simpa using this
              simp [this, hc0h]
            · rw [hline, List.takeWhile_cons, if_neg h0] at hsa
              simp [stripChars] at hsa
    · rw [hv, goodValB]
      simp only [Bool.and_eq_true]
      refine ⟨stripChars_stripInv _, ?_⟩
      rw [noBreakB, List.all_eq_true]
      intro c hc
      have hc1 := mem_stripChars hc
      have hc2 := List.drop_subset 1 _ hc1
      have hc3 := (List.dropWhile_sublist (p := fun c => c != '=')).mem hc2
      simpa using hlinebrk c hc3

/-- The read-state fold preserves hygiene and key distinctness. -/
theorem foldl_entries_invariant :
    ∀ (lines : List (List Char)) (d : List (String × String)),
      (∀ l ∈ lines, ∀ c ∈ l, isLineBreak c = false) →
      goodEntries d = true → (d.map Prod.fst).Nodup →
      goodEntries (List.foldl
        (fun st l =>
          match stateLineEntry l with
          | some kv => dictSetS st kv.1 kv.2
          | Option.none => st) d lines) = true ∧
      ((List.foldl
        (fun st l =>
          match stateLineEntry l with
          | some kv => dictSetS st kv.1 kv.2
          | Option.none => st) d lines).map Prod.fst).Nodup := by
  intro lines
  induction lines with
  | nil => intro d _ hg hnd; exact ⟨hg, hnd⟩
  | cons l lines ih =>
    intro d hbrk hg hnd
    rw [List.foldl_cons]
    cases hent : stateLineEntry l with
    | none =>
      exact ih d (fun l' hl' => hbrk l' (by simp [hl'])) hg hnd
    | some kv =>
      obtain ⟨k, v⟩ := kv
      obtain ⟨hgk, hgv⟩ := stateLineEntry_good (hbrk l (by simp)) hent
      exact ih (dictSetS d k v) (fun l' hl' => hbrk l' (by simp [hl']))
        (dictSetS_good hgk hgv d hg) (dictSetS_nodup d hnd)

/-- Whatever the file contains, the parsed record is hygienic with distinct
keys. -/
theorem read_state_good (file : Option String) :
    goodEntries (read_state file) = true ∧ ((read_state file).map Prod.fst).Nodup := by
  cases file with
  | none => exact ⟨rfl, List.nodup_nil⟩
  | some text =>
    rw [read_state]
    exact foldl_entries_invariant _ []
      (fun l hl => splitLinesCore_no_break text.data [] false (by simp) l
        (by simpa [splitLines] using hl))
      rfl (by simp)

theorem dictUpdateS_preserve :
    ∀ (u d : List (String × String)), goodEntries u = true → goodEntries d = true →
      (d.map Prod.fst).Nodup →
      goodEntries (dictUpdateS d u) = true ∧ ((dictUpdateS d u).map Prod.fst).Nodup := by
  intro u
  induction u with
  | nil => intro d _ hg hnd; exact ⟨hg, hnd⟩
  | cons kv u ih =>
    intro d hu hg hnd
    rw [goodEntries, List.all_cons, Bool.and_eq_true] at hu
    rw [Bool.and_eq_true] at hu
    obtain ⟨k, v⟩ := kv
    rw [show dictUpdateS d ((k, v) :: u) = dictUpdateS (dictSetS d k v) u from rfl]
    exact ih (dictSetS d k v) hu.2 (dictSetS_good hu.1.1 hu.1.2 d hg) (dictSetS_nodup d hnd)

/-- The central state-store lemma: reading back a write is exactly the
dictionary merge of the previous record with the (hygienic) updates. -/
theorem readState_writeState (file : Option String) (u : List (String × String))
    (hu : goodEntries u = true) :
    read_state (some (write_state file u)) = dictUpdateS (read_state file) u := by
  obtain ⟨hg, hnd⟩ := read_state_good file
  obtain ⟨hMg, hMnd⟩ := dictUpdateS_preserve u (read_state file) hu hg hnd
  rw [write_state, read_state_serializeCh hMg]
  exact dictUpdateS_nil_of_nodup hMnd

theorem lookupS_dictSetS_ne {k x : String} (hx : x ≠ k) (v : String) :
    ∀ d, lookupS (dictSetS d k v) x = lookupS d x := by
  have hkx : (k == x) = false := beq_eq_false_iff_ne.mpr (Ne.symm hx)
  intro d
  induction d with
  | nil => simp [dictSetS, lookupS, hkx]
  | cons kv d ih =>
    rw [dictSetS]
    by_cases h : kv.1 == k
    · rw [if_pos h]
      have he : kv.1 = k := by simpa using h
      rw [lookupS, lookupS, he]
      simp [hkx]
    · rw [if_neg h, lookupS, lookupS]
      by_cases h2 : kv.1 == x
      · simp [h2]
      · simp [h2, ih]

theorem containsS_mem_keys : ∀ (d : List (String × String)) (x : String),
    containsS d x = true ↔ x ∈ d.map Prod.fst := by
  intro d
  induction d with
  | nil => intro x; simp [containsS, lookupS]
  | cons kv d ih =>
    intro x
    by_cases h : kv.1 == x
    · have he : kv.1 = x := by simpa using h
      simp [containsS, lookupS, h, he]
    · have hne : kv.1 ≠ x := by simpa using h
      have hstep : containsS (kv :: d) x = containsS d x := by
        rw [containsS, containsS, lookupS]
        simp [h]
      rw [hstep, ih x, List.map_cons, List.mem_cons]
      constructor
      · exact Or.inr
      · rintro (he | hm)
        · exact absurd he.symm hne
        · exact hm

theorem containsS_dictSetS_mono {k v x : String} (d : List (String × String))
    (h : containsS d x = true) : containsS (dictSetS d k v) x = true := by
  rw [containsS_mem_keys] at h ⊢
  rw [keys_dictSetS]
  exact Or.inl h

theorem dictUpdateS_lookup_notin {x : String} :
    ∀ (u d : List (String × String)), (∀ kv ∈ u, kv.1 ≠ x) →
      lookupS (dictUpdateS d u) x = lookupS d x := by
  intro u
  induction u with
  | nil => intro d _; rfl
  | cons kv u ih =>
    intro d hu
    obtain ⟨k, v⟩ := kv
    rw [show dictUpdateS d ((k, v) :: u) = dictUpdateS (dictSetS d k v) u from rfl]
    rw [ih _ (fun kv' h => hu kv' (by simp [h]))]
    exact lookupS_dictSetS_ne (fun h => hu (k, v) (by simp) h.symm) v d

theorem dictUpdateS_contains_mono {x : String} :
    ∀ (u d : List (String × String)), containsS d x = true →
      containsS (dictUpdateS d u) x = true := by
  intro u
  induction u with
  | nil => intro d h; exact h
  | cons kv u ih =>
    intro d h
    obtain ⟨k, v⟩ := kv
    rw [show dictUpdateS d ((k, v) :: u) = dictUpdateS (dictSetS d k v) u from rfl]
    exact ih _ (containsS_dictSetS_mono d h)

/-- C4 (amended).  Starting from an absent or empty state file, writing a
key/value set whose keys and values are unchanged by whitespace-trimming and
contain no line-break characters, whose keys contain no `=` and do not start
with `#`, and whose keys are pairwise distinct, then reading it back returns
exactly that set.  (As originally stated — constraining only the values, and
only against `=` and newline — the claim is false: see the counterexample
with a value carrying a leading space.) -/
theorem c4_round_trip (u : List (String × String)) (hu : goodEntries u = true)
    (hnd : (u.map Prod.fst).Nodup) :
    read_state (some (write_state Option.none u)) = u ∧
    read_state (some (write_state (some "") u)) = u := by
  constructor
  · rw [readState_writeState Option.none u hu]
    exact dictUpdateS_nil_of_nodup hnd
  · rw [readState_writeState (some "") u hu]
    exact dictUpdateS_nil_of_nodup hnd

/-- Witness for C4: a concrete two-entry record round-trips through an
absent state file. -/
theorem c4_round_trip_witness :
    goodEntries [("current_bank", "1"), ("station_name", "BBC Radio 4")] = true ∧
    read_state (some (write_state Option.none
      [("current_bank", "1"), ("station_name", "BBC Radio 4")])) =
      [("current_bank", "1"), ("station_name", "BBC Radio 4")] :=
  ⟨by decide, (c4_round_trip [("current_bank", "1"), ("station_name", "BBC Radio 4")]
    (by decide) (by decide)).1⟩

/-- Counterexample to C4 as stated: the value `" a"` contains neither `=` nor
a newline, yet the read of its write returns `"a"` — reading trims each
value, so values with surrounding whitespace do not round-trip. -/
theorem c4_counterexample :
    (" a".data.all (fun c => c != '=' && c != '\n') = true) ∧
    read_state (some (write_state Option.none [("k", " a")])) ≠ [("k", " a")] := by
  exact ⟨by decide, by decide⟩

/-- C5.  A write preserves every key of the existing record: each existing
key is still present after the write, and a key not mentioned by the
(hygienic) updates keeps its exact value; two successive writes of `bank` and
`volume` leave a record containing both. -/
theorem c5_write_preserves_keys :
    (∀ (file : Option String) (u : List (String × String)), goodEntries u = true →
      (∀ k, containsS (read_state file) k = true →
        containsS (read_state (some (write_state file u))) k = true) ∧
      (∀ k, (∀ kv ∈ u, kv.1 ≠ k) →
        lookupS (read_state (some (write_state file u))) k =
          lookupS (read_state file) k)) ∧
    read_state (some (write_state (some (write_state Option.none [("bank", "1")]))
      [("volume", "75")])) = [("bank", "1"), ("volume", "75")] := by
  refine ⟨fun file u hu => ?_, by decide⟩
  rw [readState_writeState file u hu]
  exact ⟨fun k hk => dictUpdateS_contains_mono u _ hk,
    fun k hk => dictUpdateS_lookup_notin u _ hk⟩

/-- Witness for C5: writing `volume` to a file holding `bank=1` keeps the
`bank` key and its value. -/
theorem c5_write_preserves_keys_witness :
    containsS (read_state (some (write_state (some "bank=1\n") [("volume", "75")])))
      "bank" = true ∧
    lookupS (read_state (some (write_state (some "bank=1\n") [("volume", "75")]))) "bank" =
      lookupS (read_state (some "bank=1\n")) "bank" :=
  ⟨(c5_write_preserves_keys.1 (some "bank=1\n") [("volume", "75")] (by decide)).1 "bank"
    (by decide),
   (c5_write_preserves_keys.1 (some "bank=1\n") [("volume", "75")] (by decide)).2 "bank"
    (by decide)⟩

/-- C8.  The stations validator returns a single error at once when the
top-level `banks` mapping is absent or not a mapping; otherwise its output is
the in-order concatenation of the per-bank errors (so a ruined bank is
reported and skipped while the remaining banks are still processed); a
mapping bank without `stations` yields exactly its one missing-stations
error, as in the concrete example; and the per-bank check never depends on
the contents of a present `stations` mapping — station records are not
descended into. -/
theorem c8_stations_validator :
    (∀ d, dictGetS d "banks" = Option.none →
      validate_stations_config (Val.dict d) = ["Missing \x27banks\x27 section"]) ∧
    (∀ d v, dictGetS d "banks" = some v → isDictB v = false →
      validate_stations_config (Val.dict d) = ["\x27banks\x27 must be a dictionary"]) ∧
    (∀ d banks, dictGetS d "banks" = some (Val.dict banks) →
      validate_stations_config (Val.dict d) =
        (banks.map (fun kv => stationsBankErrs kv.1 kv.2)).flatten) ∧
    (∀ bankId b b', isSomeDict (dictGetS b "stations") = true →
      isSomeDict (dictGetS b' "stations") = true →
      stationsBankErrs bankId (Val.dict b) = stationsBankErrs bankId (Val.dict b')) ∧
    validate_stations_config stationsCfgMissing = ["Bank 0 missing \x27stations\x27"] := by
  refine ⟨fun d h => ?_, fun d v h hv => ?_, fun d banks h => ?_,
    fun bankId b b' hb hb' => ?_, by decide⟩
  · simp only [validate_stations_config]; rw [h]
  · simp only [validate_stations_config]; rw [h]; cases v <;> simp_all [isDictB]
  · simp only [validate_stations_config]; rw [h]
    simpa using foldl_append_eq (fun kv => stationsBankErrs kv.1 kv.2) banks []
  · cases hs : dictGetS b "stations" with
    | none => simp [hs, isSomeDict] at hb
    | some v =>
      cases hs' : dictGetS b' "stations" with
      | none => simp [hs', isSomeDict] at hb'
      | some v' =>
        cases v <;> simp [hs, isSomeDict] at hb
        cases v' <;> simp [hs', isSomeDict] at hb'
        simp [stationsBankErrs, hs, hs']

/-- Witness for C8: the hypothesis-bearing conjuncts applied to concrete
stations trees. -/
theorem c8_stations_validator_witness :
    validate_stations_config (Val.dict [(Val.str "other", Val.int 1)]) =
      ["Missing \x27banks\x27 section"] ∧
    validate_stations_config (Val.dict [(Val.str "banks", Val.int 7)]) =
      ["\x27banks\x27 must be a dictionary"] ∧
    validate_stations_config
      (Val.dict [(Val.str "banks",
        Val.dict [(Val.int 0, Val.str "bad"), (Val.int 1, Val.dict [])])]) =
      (([(Val.int 0, Val.str "bad"), ((Val.int 1 : Val), (Val.dict [] : Val))].map
        (fun kv => stationsBankErrs kv.1 kv.2)).flatten) ∧
    stationsBankErrs (Val.int 0)
        (Val.dict [(Val.str "stations", Val.dict [(Val.int 0, Val.str "a")])]) =
      stationsBankErrs (Val.int 0)
        (Val.dict [(Val.str "name", Val.str "News"),
          (Val.str "stations", Val.dict [(Val.int 1, Val.int 5)])]) :=
  ⟨c8_stations_validator.1 _ rfl,
   c8_stations_validator.2.1 _ _ rfl rfl,
   c8_stations_validator.2.2.1 _ _ rfl,
   c8_stations_validator.2.2.2.1 _ _ _ rfl rfl⟩

end Radio
